import Mathlib

/-!
Verification development for the three activity exporters
(`gh_export.py`, `gdocs_export.py`, `calendar_export.py`).

The Python sources are shallowly embedded below: pure helper functions
become Lean functions, the row-building loops become folds over explicit
lists of raw API records, and the `datetime` library operations the
scripts rely on (`fromisoformat`, `strftime`, ordinal arithmetic,
instant comparison of aware datetimes) are modelled by executable Lean
functions over a concrete record of calendar fields.

Machine-level caveats of the model are noted at each definition.
-/

namespace PerfReview

/-! ### Python string primitives

Python compares strings lexicographically by code point; these are the
corresponding operations on `List Char`.  `String`s are unpacked to
`List Char` so that every definition evaluates by kernel reduction.
-/

/-- Code-point lexicographic strict comparison of character lists, as
Python compares strings: a proper prefix is smaller. -/
def lexLt : List Char → List Char → Bool
  | [], [] => false
  | [], _ :: _ => true
  | _ :: _, [] => false
  | a :: as, b :: bs => a.toNat < b.toNat || (a == b && lexLt as bs)

/-- Python `<=` on strings: `lexLt` or equal. -/
def lexLe (a b : List Char) : Bool := lexLt a b || a == b

/-- Python `a < b` on `String`. -/
def strLt (a b : String) : Bool := lexLt a.data b.data

/-- Python `a <= b` on `String`. -/
def strLe (a b : String) : Bool := lexLe a.data b.data

/-- Python slicing `s[:n]`. -/
def strTake (s : String) (n : Nat) : String := String.mk (s.data.take n)

/-- The decimal digit character for `n < 10` (used to build zero-padded
numeric fields the way Python renders dates). -/
def digitChar10 (n : Nat) : Char :=
  match n with
  | 0 => '0' | 1 => '1' | 2 => '2' | 3 => '3' | 4 => '4'
  | 5 => '5' | 6 => '6' | 7 => '7' | 8 => '8' | _ => '9'

/-- Zero-padded decimal rendering of `n % 10 ^ w` on exactly `w` digits,
most significant digit first: the numeric fields of Python
`strftime`/`isoformat` output. -/
def padNum : Nat → Nat → List Char
  | 0, _ => []
  | w + 1, n => digitChar10 (n / 10 ^ w % 10) :: padNum w n

/-- Read exactly `w` decimal digits, returning `acc` extended by them and
the remaining characters; `none` if a non-digit (or end of input) is hit. -/
def readNDigits : Nat → Nat → List Char → Option (Nat × List Char)
  | 0, acc, cs => some (acc, cs)
  | _ + 1, _, [] => none
  | w + 1, acc, c :: cs =>
      if 48 ≤ c.toNat ∧ c.toNat ≤ 57 then
        readNDigits w (acc * 10 + (c.toNat - 48)) cs
      else none

/-- Consume one expected character. -/
def expectChar (c : Char) : List Char → Option (List Char)
  | [] => none
  | x :: xs => if x = c then some xs else none

/-! ### Proleptic-Gregorian calendar arithmetic

The exporters lean on Python's `datetime` library for date ordering and
date arithmetic.  `datetime` uses the proleptic Gregorian calendar with
`0001-01-01` having ordinal 1; the functions below are the library's
`_is_leap`, `_days_in_month`, `_days_before_month`, `_days_before_year`
and `_ymd2ord`, which the embedding treats as the semantics of `date`
and `datetime` values.
-/

/-- Gregorian leap-year test (CPython `_is_leap`). -/
def isLeap (y : Nat) : Bool := y % 4 == 0 && (y % 100 != 0 || y % 400 == 0)

/-- Number of days in month `m` of year `y` (CPython `_days_in_month`). -/
def daysInMonth (y m : Nat) : Nat :=
  if m = 2 then (if isLeap y then 29 else 28)
  else if m = 4 ∨ m = 6 ∨ m = 9 ∨ m = 11 then 30
  else 31

/-- Days in year strictly before the first of month `m`, ignoring the
leap day (CPython `_days_before_month` table). -/
def daysBeforeMonth (m : Nat) : Nat :=
  match m with
  | 1 => 0 | 2 => 31 | 3 => 59 | 4 => 90 | 5 => 120 | 6 => 151
  | 7 => 181 | 8 => 212 | 9 => 243 | 10 => 273 | 11 => 304 | 12 => 334
  | _ => 0

/-- Number of days in all years strictly before year `y`
(CPython `_days_before_year`). -/
def daysBeforeYear (y : Nat) : Nat :=
  365 * (y - 1) + (y - 1) / 4 + (y - 1) / 400 - (y - 1) / 100

/-- The leap-day adjustment of a date's day-of-year: one extra day once
past February in a leap year. -/
def leapAdj (y m : Nat) : Nat := if 2 < m ∧ isLeap y = true then 1 else 0

/-- Proleptic-Gregorian ordinal of a calendar date, `0001-01-01` being
day 1 (CPython `_ymd2ord`). -/
def ymd2ord (y m d : Nat) : Nat :=
  daysBeforeYear y + daysBeforeMonth m + leapAdj y m + d

/-- Validity of a calendar date, exactly the range checks `datetime.date`
enforces on construction. -/
def validDate (y m d : Nat) : Prop :=
  1 ≤ y ∧ y ≤ 9999 ∧ 1 ≤ m ∧ m ≤ 12 ∧ 1 ≤ d ∧ d ≤ daysInMonth y m

instance (y m d : Nat) : Decidable (validDate y m d) := by
  unfold validDate; infer_instance

/-- Length of year `y` in days. -/
def yearLen (y : Nat) : Nat := if isLeap y then 366 else 365

/-- Find the year containing ordinal day `n` counted from the start of
year `y`, together with the (1-based) day of that year. -/
def findYear (y n : Nat) : Nat × Nat :=
  if _h : yearLen y < n then findYear (y + 1) (n - yearLen y) else (y, n)
  termination_by n
  decreasing_by
    have : 365 ≤ yearLen y := by unfold yearLen; split <;> omega
    omega

/-- Find the month of year `y` containing (1-based) day-of-year `doy`,
starting the scan at month `m`, together with the day of that month. -/
def findMonth (y m doy : Nat) : Nat × Nat :=
  if daysInMonth y m < doy ∧ m < 12 then
    findMonth y (m + 1) (doy - daysInMonth y m)
  else (m, doy)
  termination_by 12 - m

/-- Calendar date of a proleptic-Gregorian ordinal: the inverse of
`ymd2ord` (the role of CPython `_ord2ymd`): peel off whole years, then
whole months.  `ord2ymd_spec` below pins it to be the inverse of
`ymd2ord`, which determines it uniquely on valid ordinals. -/
def ord2ymd (n : Nat) : Nat × Nat × Nat :=
  ((findYear 1 n).1,
    (findMonth (findYear 1 n).1 1 (findYear 1 n).2).1,
    (findMonth (findYear 1 n).1 1 (findYear 1 n).2).2)

/-! ### The `datetime` value model

A `PyDateTime` is the record of fields carried by a Python `datetime`
value: calendar date, time of day, microseconds, and the fixed-offset
timezone in minutes east of UTC (`none` for a naive value, as produced
by parsing a string with no offset suffix).
-/

/-- A Python `datetime` value: calendar fields plus an optional
fixed-offset timezone in minutes. -/
structure PyDateTime where
  year : Nat
  month : Nat
  day : Nat
  hour : Nat
  minute : Nat
  second : Nat
  micro : Nat
  tzoff : Option Int
  deriving DecidableEq

/-- The range checks `datetime.datetime` enforces on construction
(date valid, time fields in range, offset under one day). -/
def PyDateTime.validB (t : PyDateTime) : Bool :=
  decide (validDate t.year t.month t.day) &&
  t.hour ≤ 23 && t.minute ≤ 59 && t.second ≤ 59 && t.micro ≤ 999999 &&
  (match t.tzoff with
   | none => true
   | some off => decide (-1439 ≤ off ∧ off ≤ 1439))

/-- The instant a `datetime` value denotes, in microseconds from the
ordinal epoch, treating a naive value as UTC.  Python compares two
aware `datetime`s exactly by this quantity (subtract `utcoffset`, then
compare); comparing naive with aware raises `TypeError` in Python, a
case none of the modelled code paths reach (every compared value comes
from `parse_ts` of a `Z`-normalized string, hence carries offset 0). -/
def epochMicros (t : PyDateTime) : Int :=
  ((ymd2ord t.year t.month t.day : Int) * 86400
    + t.hour * 3600 + t.minute * 60 + t.second
    - (t.tzoff.getD 0) * 60) * 1000000 + t.micro

/-- Python `a < b` on `datetime` values (instant comparison). -/
def dtLt (a b : PyDateTime) : Bool := epochMicros a < epochMicros b

/-! ### `datetime.fromisoformat`

The parser below is CPython's pre-3.11 `fromisoformat` grammar:
`YYYY-MM-DD`, optionally followed by a one-character separator and
`HH[:MM[:SS[.fff[fff]]]]`, optionally followed by a `±HH:MM` offset
(offsets with a seconds part are not modelled — no string handled by the
exporters carries one, since the scripts replace `Z` by `+00:00` before
parsing and otherwise pass API timestamps through).  Field ranges are
validated after parsing, as the constructor does.
-/

/-- Parse the optional fractional-second part: absent, 3 digits, or 6
digits after a dot, yielding microseconds. -/
def parseFrac : List Char → Option (Nat × List Char)
  | '.' :: cs =>
      match readNDigits 6 0 cs with
      | some (micro, rest) => some (micro, rest)
      | none =>
          match readNDigits 3 0 cs with
          | some (milli, rest) => some (milli * 1000, rest)
          | none => none
  | cs => some (0, cs)

/-- Parse the optional `±HH:MM` timezone suffix, which must end the
string; yields the offset in minutes (`none` = naive). -/
def parseTz : List Char → Option (Option Int)
  | [] => some none
  | sign :: cs =>
      if sign = '+' ∨ sign = '-' then
        match readNDigits 2 0 cs with
        | some (th, rest) =>
            match expectChar ':' rest with
            | some rest2 =>
                match readNDigits 2 0 rest2 with
                | some (tm, []) =>
                    let mins : Int := th * 60 + tm
                    some (some (if sign = '-' then -mins else mins))
                | _ => none
            | none => none
        | none => none
      else none

/-- Parse `HH[:MM[:SS[.frac]]]` followed by the optional offset. -/
def parseTimePart (cs : List Char) : Option (Nat × Nat × Nat × Nat × Option Int) :=
  match readNDigits 2 0 cs with
  | none => none
  | some (h, rest) =>
      match rest with
      | ':' :: rest2 =>
          match readNDigits 2 0 rest2 with
          | none => none
          | some (mi, rest3) =>
              match rest3 with
              | ':' :: rest4 =>
                  match readNDigits 2 0 rest4 with
                  | none => none
                  | some (s, rest5) =>
                      match parseFrac rest5 with
                      | none => none
                      | some (micro, rest6) =>
                          match parseTz rest6 with
                          | none => none
                          | some off => some (h, mi, s, micro, off)
              | _ =>
                  match parseTz rest3 with
                  | none => none
                  | some off => some (h, mi, 0, 0, off)
      | _ =>
          match parseTz rest with
          | none => none
          | some off => some (h, 0, 0, 0, off)

/-- Parse the full `fromisoformat` grammar into raw fields. -/
def parseFields (cs : List Char) : Option PyDateTime :=
  match readNDigits 4 0 cs with
  | none => none
  | some (y, r1) =>
      match expectChar '-' r1 with
      | none => none
      | some r2 =>
          match readNDigits 2 0 r2 with
          | none => none
          | some (mo, r3) =>
              match expectChar '-' r3 with
              | none => none
              | some r4 =>
                  match readNDigits 2 0 r4 with
                  | none => none
                  | some (d, r5) =>
                      match r5 with
                      | [] => some ⟨y, mo, d, 0, 0, 0, 0, none⟩
                      | _sep :: r6 =>
                          match parseTimePart r6 with
                          | none => none
                          | some (h, mi, s, micro, off) =>
                              some ⟨y, mo, d, h, mi, s, micro, off⟩

/-- CPython `datetime.fromisoformat` (pre-3.11 grammar): parse, then
validate ranges; `none` models the `ValueError` the library raises. -/
def fromisoformat (s : String) : Option PyDateTime :=
  match parseFields s.data with
  | none => none
  | some t => if t.validB then some t else none

/-- Python `dtstr.replace("Z", "+00:00")` as both scripts apply it
before parsing: every occurrence of the single character `Z` is
replaced. -/
def pyReplaceZ : List Char → List Char
  | [] => []
  | c :: cs =>
      if c = 'Z' then '+' :: '0' :: '0' :: ':' :: '0' :: '0' :: pyReplaceZ cs
      else c :: pyReplaceZ cs

/-- `dt.strftime("%Y-%m-%dT%H:%M:%SZ")`: the normalized timestamp shape
both `iso` helpers emit. -/
def strftimeZ (t : PyDateTime) : String :=
  String.mk (padNum 4 t.year ++ '-' :: padNum 2 t.month ++ '-' :: padNum 2 t.day
    ++ 'T' :: padNum 2 t.hour ++ ':' :: padNum 2 t.minute ++ ':' :: padNum 2 t.second
    ++ ['Z'])

/-- `dt.isoformat()` on a `datetime` value: date, `T`, time, the
fractional part only when nonzero, and the offset suffix when aware. -/
def isoformatDT (t : PyDateTime) : String :=
  String.mk (padNum 4 t.year ++ '-' :: padNum 2 t.month ++ '-' :: padNum 2 t.day
    ++ 'T' :: padNum 2 t.hour ++ ':' :: padNum 2 t.minute ++ ':' :: padNum 2 t.second
    ++ (if t.micro = 0 then [] else '.' :: padNum 6 t.micro)
    ++ (match t.tzoff with
        | none => []
        | some off =>
            if off < 0 then
              '-' :: padNum 2 ((-off).toNat / 60) ++ ':' :: padNum 2 ((-off).toNat % 60)
            else
              '+' :: padNum 2 (off.toNat / 60) ++ ':' :: padNum 2 (off.toNat % 60)))

/-- `dt.date().isoformat()`: the wall-clock calendar date of a
`datetime` value, rendered `YYYY-MM-DD` (no offset conversion). -/
def dateIsoDT (t : PyDateTime) : String :=
  String.mk (padNum 4 t.year ++ '-' :: padNum 2 t.month ++ '-' :: padNum 2 t.day)

/-! ### The scripts' timestamp helpers

`iso` appears verbatim in both `gh_export.py` (lines 44-50) and
`gdocs_export.py` (lines 38-45); `parse_ts` is `gdocs_export.py`
lines 80-86.  The argument of `iso` is `Option String` because one call
site (`iso(prd.get("merged_at"))`) passes `None`.
-/

/-- `iso(dtstr)`: best-effort normalization to `YYYY-MM-DDTHH:MM:SSZ`;
falsy input gives `""`, and a parse failure returns the input unchanged
(the `except` branch returns `dtstr`). -/
def iso (dtstr : Option String) : String :=
  match dtstr with
  | none => ""
  | some s =>
      if s = "" then ""
      else
        match fromisoformat (String.mk (pyReplaceZ s.data)) with
        | some t => strftimeZ t
        | none => s

/-- `parse_ts(ts)`: `None` for falsy input, otherwise `fromisoformat`
of the `Z`-normalized string, `None` on failure. -/
def parse_ts (ts : String) : Option PyDateTime :=
  if ts = "" then none
  else fromisoformat (String.mk (pyReplaceZ ts.data))

/-! ### Window resolution

`default_range` is `calendar_export.py` lines 21-25 and
`gdocs_export.py` lines 16-20; `daterange_defaults` in `gh_export.py`
lines 8-11 is the same computation.  `datetime.date` values are
represented by their proleptic-Gregorian ordinal (`ymd2ord`), the
library's own internal order; `today - timedelta(days=182)` is ordinal
subtraction, and `.isoformat()` renders the ordinal's calendar date.
The surrounding `if not since or not until` default (each `main`) is
`resolveWindow`.
-/

/-- Render a calendar-date triple as `YYYY-MM-DD` (`date.isoformat`). -/
def pyDateIso (ymd : Nat × Nat × Nat) : String :=
  String.mk (padNum 4 ymd.1 ++ '-' :: padNum 2 ymd.2.1 ++ '-' :: padNum 2 ymd.2.2)

/-- `date.fromisoformat`-style observer used to state properties of the
rendered window bounds: exactly `YYYY-MM-DD`, range-checked. -/
def parseDateStr (s : String) : Option (Nat × Nat × Nat) :=
  match readNDigits 4 0 s.data with
  | none => none
  | some (y, r1) =>
      match expectChar '-' r1 with
      | none => none
      | some r2 =>
          match readNDigits 2 0 r2 with
          | none => none
          | some (mo, r3) =>
              match expectChar '-' r3 with
              | none => none
              | some r4 =>
                  match readNDigits 2 0 r4 with
                  | some (d, []) =>
                      if validDate y mo d then some (y, mo, d) else none
                  | _ => none

/-- `default_range()` given today's date as an ordinal: since is 182
days back, until is today, both rendered `YYYY-MM-DD`. -/
def default_range (today : Nat) : String × String :=
  (pyDateIso (ord2ymd (today - 182)), pyDateIso (ord2ymd today))

/-- Python truthiness test applied to an optional CLI string argument:
`not x` holds for an absent argument and for the empty string. -/
def strFalsy : Option String → Bool
  | none => true
  | some s => s == ""

/-- The window-defaulting step of each `main`:
`since, until = (args.since, args.until)` followed by
`if not since or not until: since, until = default_range()`. -/
def resolveWindow (sinceArg untilArg : Option String) (today : Nat) : String × String :=
  if strFalsy sinceArg || strFalsy untilArg then default_range today
  else (sinceArg.getD "", untilArg.getD "")

namespace GH

/-! ### `gh_export.py`: request layer and error-handling paths -/

/-- An HTTP response as `req` inspects it: status code and the two
rate-limit headers (`X-RateLimit-Remaining` as the raw header string,
`X-RateLimit-Reset` as the parsed integer, absent when the header is). -/
structure HttpResponse where
  status : Nat
  rateLimitRemaining : Option String
  rateLimitReset : Option Nat
  deriving DecidableEq

/-- The rate-limit test on line 15: status 403 and remaining `"0"`. -/
def isRateLimited (r : HttpResponse) : Bool :=
  r.status == 403 && r.rateLimitRemaining == some "0"

/-- `requests.Response.raise_for_status`: raises `HTTPError` carrying
the status for any 4xx or 5xx response, otherwise returns. -/
def raiseForStatus (r : HttpResponse) : Except Nat HttpResponse :=
  if 400 ≤ r.status ∧ r.status ≤ 599 then .error r.status else .ok r

/-- The observable outcome of one `req` call: number of HTTP requests
issued, the sleeps performed (seconds), and the final result. -/
structure ReqOutcome where
  attempts : Nat
  sleeps : List Int
  result : Except Nat HttpResponse

/-- `req(session, method, url, **kwargs)` (`gh_export.py` lines 13-21)
run against a server transcript: `first` answers the original request,
`second` answers the single retried request (used only when the first
response is rate-limited); `now` is `int(time.time())` at backoff time. -/
def req (now : Int) (first second : HttpResponse) : ReqOutcome :=
  if isRateLimited first then
    let reset : Int := (first.rateLimitReset.getD 0 : Nat)
    let sleepS : Int := max (reset - now + 2) 10
    { attempts := 2, sleeps := [sleepS], result := raiseForStatus second }
  else
    { attempts := 1, sleeps := [], result := raiseForStatus first }

/-- A page fetch outcome as the pagination loop sees it: the decoded
page body, or the `HTTPError` status that `req` raised. -/
abbrev PageResult (α : Type) := Except Nat α

/-- `list_commits_for_repo` (lines 70-79) at the page level.  The
`try`/`except requests.HTTPError` wraps the whole generator loop: each
successfully fetched page has its commits yielded one by one; the first
failing page fetch raises inside the `try`, the handler returns, and
the generator just ends — commits already yielded stay with the caller,
the error is swallowed. -/
def listCommitsForRepo (pages : List (PageResult (List α))) : List α :=
  match pages with
  | [] => []
  | .ok page :: rest => page ++ listCommitsForRepo rest
  | .error _ :: _ => []

/-- `search_issues` (lines 52-56): the same page loop with no handler.
Items stream to the caller until a page fetch raises; the exception
propagates, so the caller's accumulated rows die with the job and the
outcome is the error. -/
def searchIssues (pages : List (PageResult (List α))) : Except Nat (List α) :=
  match pages with
  | [] => .ok []
  | .ok page :: rest => (searchIssues rest).map (page ++ ·)
  | .error e :: _ => .error e

/-- The commit phase of `main` (lines 168-174): per repository, the
commits streamed by `list_commits_for_repo` are turned into rows; an
HTTP error inside one repository's listing never escapes, and the loop
moves on to the next repository. -/
def commitPhase (repos : List (String × List (PageResult (List α)))) :
    List (String × α) :=
  (repos.map (fun rp => (listCommitsForRepo rp.2).map (fun c => (rp.1, c)))).flatten

end GH

namespace Cal

/-! ### `calendar_export.py`: event rows

Only the fields the claims mention are modelled; the remaining row
fields (title, links, organizer, attendee count) are extracted from
other event keys by the same loop and are irrelevant to every claim.
An `Option (Option String)` field distinguishes an absent JSON key
(outer `none`) from a key that is present with a `null` value.
-/

/-- The `start`/`end` sub-object of a calendar event. -/
structure EventTime where
  dateTime : Option (Option String)
  date : Option (Option String)
  deriving DecidableEq

/-- A calendar event, restricted to the keys the claims touch. -/
structure Event where
  startT : Option EventTime
  endT : Option EventTime
  deriving DecidableEq

/-- `parse_event_time(event, key)` (lines 45-52), applied to the
already-selected sub-object: prefer `dateTime` (nullable, `""` for
null), else `date` plus a UTC-midnight suffix, else `""`.  The
`.replace("Z", "Z")` in the source is the identity and is omitted. -/
def parse_event_time (raw : Option EventTime) : String :=
  let r := raw.getD ⟨none, none⟩
  match r.dateTime with
  | some v => v.getD ""
  | none =>
      match r.date with
      | some v => v.getD "" ++ "T00:00:00Z"
      | none => ""

/-- The row fields the claims mention, as built by the event loop
(lines 90-119). -/
structure CalRow where
  date : String
  start : String
  endT : String
  deriving DecidableEq

/-- One iteration of the event loop: the `date` field is
`start_str[:10] if start_str else ""`. -/
def calRow (e : Event) : CalRow :=
  let start_str := parse_event_time e.startT
  let end_str := parse_event_time e.endT
  { date := if start_str = "" then "" else strTake start_str 10
    start := start_str
    endT := end_str }

/-- The rows produced from the (flattened) pages of events: one row per
event, no filtering of any kind. -/
def calRows (events : List Event) : List CalRow := events.map calRow

/-- Membership of a date string in the inclusive window, by Python
string comparison — the comparison the claim speaks of; `YYYY-MM-DD`
strings compare chronologically. -/
def inWindowB (since until_ d : String) : Bool :=
  strLe since d && strLe d until_

end Cal

namespace GDocs

/-! ### `gdocs_export.py`: the document-activity pipeline

Raw Drive-activity records are nested JSON objects; each structure
below carries exactly the keys the script reads, with `Option` marking
an absent key.
-/

/-- The `knownUser` object inside an actor. -/
structure KnownUser where
  isCurrentUser : Option Bool
  deriving DecidableEq

/-- The `user` object inside an actor. -/
structure DriveUser where
  knownUser : Option KnownUser
  deriving DecidableEq

/-- One entry of an activity's `actors` list. -/
structure Actor where
  user : Option DriveUser
  deriving DecidableEq

/-- `is_me_actor` (lines 47-51): drill into
`actor["user"]["knownUser"]["isCurrentUser"]` with `{}`/`False`
defaults at each level. -/
def is_me_actor (a : Actor) : Bool :=
  match a.user with
  | none => false
  | some u =>
      match u.knownUser with
      | none => false
      | some ku => ku.isCurrentUser.getD false

/-- A `driveItem`/`file` object, restricted to the keys read. -/
structure DriveItem where
  title : Option String
  name : Option String
  mimeType : Option String
  deriving DecidableEq

/-- Python truthiness of the object: an empty JSON object is falsy.
An object carrying only keys outside the modelled three is collapsed to
the empty object here; no claim distinguishes the two. -/
def DriveItem.isEmptyObj (di : DriveItem) : Bool :=
  di.title == none && di.name == none && di.mimeType == none

/-- One entry of an activity's `targets` list. -/
structure Target where
  driveItem : Option DriveItem
  file : Option DriveItem
  deriving DecidableEq

/-- Python `a or b` where `a` is a nullable string: `b` when `a` is
`None` or empty. -/
def orFalsy : Option String → String → String
  | none, d => d
  | some s, d => if s = "" then d else s

/-- `get_driveitem_info` (lines 53-58): pick `driveItem` if truthy,
else `file` if truthy, else the empty object; return
`(title or name or "", name, mimeType)` with `""` defaults. -/
def get_driveitem_info (t : Target) : String × String × String :=
  let a := t.driveItem.getD ⟨none, none, none⟩
  let b := t.file.getD ⟨none, none, none⟩
  let di := if a.isEmptyObj then b else a
  (orFalsy di.title (orFalsy di.name ""), di.name.getD "", di.mimeType.getD "")

/-- The fixed priority list of action keys (line 61). -/
def ACTION_KEYS : List String :=
  ["create", "edit", "comment", "rename", "move", "restore", "delete", "permissionChange"]

/-- ASCII upper-casing of one character, as Python `str.upper()` acts
on the ASCII-only action keys. -/
def pyUpperChar (c : Char) : Char :=
  if 'a' ≤ c ∧ c ≤ 'z' then Char.ofNat (c.toNat - 32) else c

/-- Python `str.upper()` on ASCII strings. -/
def pyUpper (s : String) : String := String.mk (s.data.map pyUpperChar)

/-- `action_label(primary)` (lines 60-64) over the key set of
`primaryActionDetail`: first priority key present wins, upper-cased;
otherwise `"OTHER"`. -/
def action_label (primaryKeys : List String) : String :=
  match ACTION_KEYS.find? (fun k => primaryKeys.contains k) with
  | some k => pyUpper k
  | none => "OTHER"

/-- A raw Drive activity record, restricted to the keys read. -/
structure Activity where
  actors : List Actor
  primaryKeys : List String
  targets : List Target
  timestamp : Option String
  timeRangeStart : Option String
  timeRangeEnd : Option String
  deriving DecidableEq

/-- `activity_time` (lines 66-71): `timestamp` when that key is
present, else `timeRange` end-or-start with falsy fallbacks. -/
def activity_time (a : Activity) : String :=
  match a.timestamp with
  | some t => t
  | none => orFalsy a.timeRangeEnd (orFalsy a.timeRangeStart "")

/-- Python `item_name.split("/")[-1]`: the characters after the last
slash. -/
def lastSegAux (cur : List Char) : List Char → List Char
  | [] => cur
  | c :: cs => if c = '/' then lastSegAux [] cs else lastSegAux (cur ++ [c]) cs

/-- The final path segment of an item name. -/
def lastSegment (s : String) : String := String.mk (lastSegAux [] s.data)

/-- `build_doc_url` (lines 73-78). -/
def build_doc_url (item_name : String) : String :=
  if item_name = "" then ""
  else "https://docs.google.com/document/d/" ++ lastSegment item_name ++ "/edit"

/-- The Google Docs MIME type (line 110). -/
def mime_docs : String := "application/vnd.google-apps.document"

/-- A canonical document-activity row (lines 142-150). -/
structure DocRow where
  date : String
  timestamp : String
  action : String
  title : String
  file_id : String
  url : String
  mimeType : String
  deriving DecidableEq

/-- The target-scanning loop (lines 133-137): variables start `""`,
each target overwrites them, and the loop breaks at the first target
whose item name is nonempty — so the result is the info of the first
target with a nonempty name, else the info of the last target. -/
def pickTarget : List Target → String × String × String
  | [] => ("", "", "")
  | [t] => get_driveitem_info t
  | t :: ts =>
      let r := get_driveitem_info t
      if r.2.1 ≠ "" then r else pickTarget ts

/-- The body of the activity loop (lines 119-151): the acceptance
filter and row construction for one raw record. -/
def normalizeActivity (a : Activity) : Option DocRow :=
  if ¬ a.actors.any is_me_actor then none
  else
    let act := action_label a.primaryKeys
    if ¬ (act = "CREATE" ∨ act = "EDIT" ∨ act = "COMMENT") then none
    else if a.targets = [] then none
    else
      let r := pickTarget a.targets
      if r.2.1 = "" ∨ r.2.2 ≠ mime_docs then none
      else
        let when := iso (some (activity_time a))
        some { date := strTake when 10
               timestamp := when
               action := act
               title := r.1
               file_id := lastSegment r.2.1
               url := build_doc_url r.2.1
               mimeType := r.2.2 }

/-- The rows list produced from the flattened activity pages. -/
def docRows (activities : List Activity) : List DocRow :=
  activities.filterMap normalizeActivity

/-- The deduplication key (line 162). -/
def rowKey (r : DocRow) : String × String × String :=
  (r.timestamp, r.action, r.file_id)

/-- The dedup loop (lines 158-167) with its `seen` set carried as a
list of keys. -/
def dedupeAux (seen : List (String × String × String)) :
    List DocRow → List DocRow
  | [] => []
  | r :: rs =>
      if rowKey r ∈ seen then dedupeAux seen rs
      else r :: dedupeAux (rowKey r :: seen) rs

/-- `dedupe`: keep the first row for each `(timestamp, action,
file_id)` key. -/
def dedupe (rows : List DocRow) : List DocRow := dedupeAux [] rows

/-- A per-file rollup (the dict created at lines 182-193), with
`active_days` a finite set as in Python. -/
structure FileAgg where
  file_id : String
  title : String
  url : String
  first_activity_dt : Option PyDateTime
  last_activity_dt : Option PyDateTime
  creates : Nat
  edits : Nat
  comments : Nat
  total_actions : Nat
  active_days : Finset String
  deriving DecidableEq

/-- The fresh rollup `setdefault` installs. -/
def freshAgg (fid : String) : FileAgg :=
  ⟨fid, "", "", none, none, 0, 0, 0, 0, ∅⟩

/-- Lines 194-197: overwrite title and url when the row's are nonempty. -/
def aggText (d : FileAgg) (r : DocRow) : FileAgg :=
  let d1 := if r.title ≠ "" then { d with title := r.title } else d
  if r.url ≠ "" then { d1 with url := r.url } else d1

/-- Lines 199-205: min/max the parsed timestamp into first/last and
record its calendar day; rows with an unparseable timestamp are
skipped. -/
def aggTime (d : FileAgg) (r : DocRow) : FileAgg :=
  match parse_ts r.timestamp with
  | some t =>
      let da :=
        if (match d.first_activity_dt with
            | none => true
            | some c => dtLt t c) then
          { d with first_activity_dt := some t }
        else d
      let db :=
        if (match da.last_activity_dt with
            | none => true
            | some c => dtLt c t) then
          { da with last_activity_dt := some t }
        else da
      { db with active_days := insert (dateIsoDT t) db.active_days }
  | none => d

/-- Lines 207-213: bump the counter of the row's action category. -/
def aggCount (d : FileAgg) (r : DocRow) : FileAgg :=
  if r.action = "CREATE" then { d with creates := d.creates + 1 }
  else if r.action = "EDIT" then { d with edits := d.edits + 1 }
  else if r.action = "COMMENT" then { d with comments := d.comments + 1 }
  else d

/-- Folding one row into its file's rollup (lines 194-214): the three
stages above followed by the unconditional total bump (line 214). -/
def aggStep (d : FileAgg) (r : DocRow) : FileAgg :=
  let d4 := aggCount (aggTime (aggText d r) r) r
  { d4 with total_actions := d4.total_actions + 1 }

/-- Routing a row to its file's entry in the insertion-ordered dict,
creating it at the end when absent (`files.setdefault`). -/
def updateAssoc (fs : List (String × FileAgg)) (fid : String) (r : DocRow) :
    List (String × FileAgg) :=
  match fs with
  | [] => [(fid, aggStep (freshAgg fid) r)]
  | (k, v) :: rest =>
      if k = fid then (k, aggStep v r) :: rest
      else (k, v) :: updateAssoc rest fid r

/-- One iteration of the summary loop (lines 178-214): rows with an
empty `file_id` are skipped. -/
def foldStep (fs : List (String × FileAgg)) (r : DocRow) :
    List (String × FileAgg) :=
  if r.file_id = "" then fs else updateAssoc fs r.file_id r

/-- The whole summary fold: the `files` dict after all rows. -/
def aggregate (rows : List DocRow) : List (String × FileAgg) :=
  rows.foldl foldStep []

/-- Dict lookup by file id. -/
def lookupAgg (fid : String) (fs : List (String × FileAgg)) : Option FileAgg :=
  (fs.find? (fun kv => kv.1 == fid)).map (·.2)

/-- A `files_list` entry, restricted to the fields that determine the
final ordering (lines 220-232): the sort key `_last_sort` and, for
stating the claim, the rollup's last-activity value it renders.  The
other entries (title, counts, display strings) ride along unchanged and
do not affect the order. -/
structure SummaryRow where
  file_id : String
  last_dt : Option PyDateTime
  lastSort : String
  deriving DecidableEq

/-- Building one `files_list` entry: `_last_sort` is
`last_activity_dt.isoformat()` or `""` (line 231). -/
def mkSummary (kv : String × FileAgg) : SummaryRow :=
  { file_id := kv.1
    last_dt := kv.2.last_activity_dt
    lastSort :=
      match kv.2.last_activity_dt with
      | some t => isoformatDT t
      | none => "" }

/-- Insert into a descending-by-key list, after existing entries with a
key not below the new one: the order `list.sort(key=..., reverse=True)`
produces. -/
def insertDesc (x : SummaryRow) : List SummaryRow → List SummaryRow
  | [] => [x]
  | y :: ys => if strLt y.lastSort x.lastSort then x :: y :: ys else y :: insertDesc x ys

/-- `files_list.sort(key=lambda x: x["_last_sort"], reverse=True)`
(line 235) as a stable descending sort. -/
def sortSummaries : List SummaryRow → List SummaryRow
  | [] => []
  | x :: xs => insertDesc x (sortSummaries xs)

/-! Observer functions used to state properties of the fold: the
running-minimum and running-maximum steps the fold applies to parsed
timestamps, and the per-file projections of a row list. -/

/-- The running-minimum step `first_activity_dt` undergoes. -/
def minStep (o : Option PyDateTime) (t : PyDateTime) : Option PyDateTime :=
  match o with
  | none => some t
  | some c => if dtLt t c then some t else some c

/-- The running-maximum step `last_activity_dt` undergoes. -/
def maxStep (o : Option PyDateTime) (t : PyDateTime) : Option PyDateTime :=
  match o with
  | none => some t
  | some c => if dtLt c t then some t else some c

/-- The rows of a list belonging to one file id. -/
def rowsFor (fid : String) (l : List DocRow) : List DocRow :=
  l.filter (fun r => r.file_id == fid)

/-- The parsed timestamps of a row list, in order. -/
def tsOf (l : List DocRow) : List PyDateTime :=
  l.filterMap (fun r => parse_ts r.timestamp)

/-- The calendar days of the parsed timestamps of a row list. -/
def daysOf (l : List DocRow) : List String :=
  l.filterMap (fun r => (parse_ts r.timestamp).map dateIsoDT)

/-- The first/last relationship claim C10 asserts: both unset, or both
set and ordered as instants. -/
def firstLeLast (a b : Option PyDateTime) : Prop :=
  match a, b with
  | none, none => True
  | some f, some lst => epochMicros f ≤ epochMicros lst
  | _, _ => False

instance : ∀ a b, Decidable (firstLeLast a b) := fun a b =>
  match a, b with
  | none, none => isTrue trivial
  | some f, some lst => inferInstanceAs (Decidable (epochMicros f ≤ epochMicros lst))
  | none, some _ => isFalse (fun h => h)
  | some _, none => isFalse (fun h => h)

/-- The invariants of claim C10 on one rollup: the total equals the sum
of the three category counters, the number of active days is bounded by
the total, and the first/last timestamps are either both unset or
ordered. -/
def aggInv (d : FileAgg) : Prop :=
  d.total_actions = d.creates + d.edits + d.comments ∧
  d.active_days.card ≤ d.total_actions ∧
  firstLeLast d.first_activity_dt d.last_activity_dt

/-- Whether a target is a document-type item in the sense of claim C3:
its extracted content type is the Google Docs MIME type. -/
def targetIsDoc (t : Target) : Bool :=
  (get_driveitem_info t).2.2 == mime_docs

/-- Agreement of two optional rollups on every field except the
last-write-wins `title`/`url`: what claim C6 asserts fold order cannot
change. -/
def rollupAgree : Option FileAgg → Option FileAgg → Prop
  | none, none => True
  | some d1, some d2 =>
      d1.file_id = d2.file_id ∧ d1.creates = d2.creates ∧
        d1.edits = d2.edits ∧ d1.comments = d2.comments ∧
        d1.total_actions = d2.total_actions ∧
        d1.active_days = d2.active_days ∧
        d1.first_activity_dt = d2.first_activity_dt ∧
        d1.last_activity_dt = d2.last_activity_dt
  | _, _ => False

instance : ∀ a b, Decidable (rollupAgree a b) := fun a b =>
  match a, b with
  | none, none => isTrue trivial
  | some d1, some d2 =>
      inferInstanceAs (Decidable
        (d1.file_id = d2.file_id ∧ d1.creates = d2.creates ∧
          d1.edits = d2.edits ∧ d1.comments = d2.comments ∧
          d1.total_actions = d2.total_actions ∧
          d1.active_days = d2.active_days ∧
          d1.first_activity_dt = d2.first_activity_dt ∧
          d1.last_activity_dt = d2.last_activity_dt))
  | none, some _ => isFalse (fun h => h)
  | some _, none => isFalse (fun h => h)

/-- Helper order on optional last-activity instants: descending, absent
values last. -/
def lastOrdered : Option PyDateTime → Option PyDateTime → Prop
  | some ta, some tb => epochMicros tb ≤ epochMicros ta
  | none, some _ => False
  | _, _ => True

instance : ∀ a b, Decidable (lastOrdered a b) := fun a b =>
  match a, b with
  | some ta, some tb =>
      inferInstanceAs (Decidable (epochMicros tb ≤ epochMicros ta))
  | none, some _ => isFalse (fun h => h)
  | none, none => isTrue trivial
  | some _, none => isTrue trivial

/-- The ordering claim C7 asserts between an earlier and a later entry
of the final summary list: instants descending, entries with no
timestamp only after every entry with one. -/
def summariesOrdered (a b : SummaryRow) : Prop :=
  lastOrdered a.last_dt b.last_dt

instance : ∀ a b, Decidable (summariesOrdered a b) := fun a b =>
  inferInstanceAs (Decidable (lastOrdered a.last_dt b.last_dt))

end GDocs

/-! ## Lemmas about Python string comparison -/

theorem lexLt_irrefl (a : List Char) : lexLt a a = false := by
  induction a with
  | nil => rfl
  | cons c cs ih => simp [lexLt, ih]

theorem lexLt_asymm {a b : List Char} (h : lexLt a b = true) : lexLt b a = false := by
  induction a generalizing b with
  | nil =>
      cases b with
      | nil => simp [lexLt] at h
      | cons y ys => rfl
  | cons x xs ih =>
      cases b with
      | nil => simp [lexLt] at h
      | cons y ys =>
          simp only [lexLt, Bool.or_eq_true, Bool.and_eq_true, beq_iff_eq,
            decide_eq_true_eq] at h
          simp only [lexLt, Bool.or_eq_false_iff, Bool.and_eq_false_iff,
            decide_eq_false_iff_not, Bool.not_eq_true, beq_eq_false_iff_ne, ne_eq]
          rcases h with h | ⟨rfl, h2⟩
          · constructor
            · omega
            · left; intro h'; subst h'; omega
          · exact ⟨by omega, Or.inr (ih h2)⟩

theorem lexLt_trichotomy (a b : List Char) :
    lexLt a b = true ∨ a = b ∨ lexLt b a = true := by
  induction a generalizing b with
  | nil =>
      cases b with
      | nil => simp
      | cons y ys => left; rfl
  | cons x xs ih =>
      cases b with
      | nil => right; right; rfl
      | cons y ys =>
          rcases Nat.lt_trichotomy x.toNat y.toNat with h | h | h
          · left; simp [lexLt, h]
          · have hxy : x = y := Char.eq_of_val_eq (UInt32.ext h)
            subst hxy
            rcases ih ys with h2 | h2 | h2
            · left; simp [lexLt, h2]
            · right; left; rw [h2]
            · right; right; simp [lexLt, h2]
          · right; right; simp [lexLt, h]

theorem lexLt_nil_right (a : List Char) : lexLt a [] = false := by
  cases a <;> rfl

theorem lexLt_cons (x y : Char) (xs ys : List Char) :
    lexLt (x :: xs) (y :: ys) = true ↔
      x.toNat < y.toNat ∨ (x = y ∧ lexLt xs ys = true) := by
  simp [lexLt]

theorem lexLe_nil_left {a : List Char} (h : lexLe a [] = true) : a = [] := by
  unfold lexLe at h
  rcases Bool.or_eq_true_iff.mp h with h' | h'
  · rw [lexLt_nil_right] at h'; exact absurd h' (by simp)
  · exact beq_iff_eq.mp h'

theorem lexLt_append (a b r s : List Char) (h : a.length = b.length) :
    lexLt (a ++ r) (b ++ s) = true ↔
      lexLt a b = true ∨ (a = b ∧ lexLt r s = true) := by
  induction a generalizing b with
  | nil =>
      cases b with
      | nil => simp [lexLt]
      | cons y ys => simp at h
  | cons x xs ih =>
      cases b with
      | nil => simp at h
      | cons y ys =>
          simp only [List.length_cons, Nat.add_right_cancel_iff] at h
          rw [List.cons_append, List.cons_append, lexLt_cons, lexLt_cons, ih ys h]
          constructor
          · rintro (h' | ⟨rfl, h2 | ⟨rfl, h3⟩⟩)
            · exact Or.inl (Or.inl h')
            · exact Or.inl (Or.inr ⟨rfl, h2⟩)
            · exact Or.inr ⟨rfl, h3⟩
          · rintro ((h' | ⟨rfl, h2⟩) | ⟨heq, h3⟩)
            · exact Or.inl h'
            · exact Or.inr ⟨rfl, Or.inl h2⟩
            · injection heq with h4 h5
              subst h4; subst h5
              exact Or.inr ⟨rfl, Or.inr ⟨rfl, h3⟩⟩

/-! ## Lemmas about padded decimal rendering -/

theorem padNum_length (w n : Nat) : (padNum w n).length = w := by
  induction w generalizing n with
  | zero => rfl
  | succ w ih => simp [padNum, ih]

theorem digitChar10_toNat {n : Nat} (h : n < 10) :
    (digitChar10 n).toNat = 48 + n := by
  interval_cases n <;> rfl

theorem digitChar10_inj {a b : Nat} (ha : a < 10) (hb : b < 10)
    (h : digitChar10 a = digitChar10 b) : a = b := by
  have := congrArg Char.toNat h
  rw [digitChar10_toNat ha, digitChar10_toNat hb] at this
  omega

theorem posCompare {p lo1 hi1 lo2 hi2 : Nat} (h1 : lo1 < p) (h2 : lo2 < p) :
    lo1 + p * hi1 < lo2 + p * hi2 ↔ hi1 < hi2 ∨ (hi1 = hi2 ∧ lo1 < lo2) := by
  constructor
  · intro h
    rcases Nat.lt_trichotomy hi1 hi2 with h' | h' | h'
    · exact Or.inl h'
    · subst h'; exact Or.inr ⟨rfl, by omega⟩
    · exfalso
      have hm : p * (hi2 + 1) ≤ p * hi1 := Nat.mul_le_mul_left p h'
      rw [Nat.mul_add, Nat.mul_one] at hm
      omega
  · rintro (h | ⟨rfl, h⟩)
    · have hm : p * (hi1 + 1) ≤ p * hi2 := Nat.mul_le_mul_left p h
      rw [Nat.mul_add, Nat.mul_one] at hm
      omega
    · omega

theorem lexLt_padNum (w n m : Nat) :
    lexLt (padNum w n) (padNum w m) = true ↔ n % 10 ^ w < m % 10 ^ w := by
  induction w generalizing n m with
  | zero => simp [padNum, lexLt, Nat.mod_one]
  | succ w ih =>
      have hdn : n / 10 ^ w % 10 < 10 := Nat.mod_lt _ (by norm_num)
      have hdm : m / 10 ^ w % 10 < 10 := Nat.mod_lt _ (by norm_num)
      have hmodn : n % 10 ^ (w + 1) = n % 10 ^ w + 10 ^ w * (n / 10 ^ w % 10) := by
        rw [pow_succ, Nat.mod_mul]
      have hmodm : m % 10 ^ (w + 1) = m % 10 ^ w + 10 ^ w * (m / 10 ^ w % 10) := by
        rw [pow_succ, Nat.mod_mul]
      rw [hmodn, hmodm,
        posCompare (Nat.mod_lt _ (Nat.pos_pow_of_pos w (by norm_num)))
          (Nat.mod_lt _ (Nat.pos_pow_of_pos w (by norm_num)))]
      simp only [padNum]
      rw [lexLt_cons, ih, digitChar10_toNat hdn, digitChar10_toNat hdm]
      constructor
      · rintro (h | ⟨heq, h2⟩)
        · exact Or.inl (by omega)
        · exact Or.inr ⟨digitChar10_inj hdn hdm heq, h2⟩
      · rintro (h | ⟨heq, h2⟩)
        · exact Or.inl (by omega)
        · exact Or.inr ⟨by rw [heq], h2⟩

theorem padNum_eq_iff (w n m : Nat) :
    padNum w n = padNum w m ↔ n % 10 ^ w = m % 10 ^ w := by
  constructor
  · intro h
    have t1 := lexLt_padNum w n m
    have t2 := lexLt_padNum w m n
    rw [h, lexLt_irrefl] at t1
    rw [h, lexLt_irrefl] at t2
    simp only [Bool.false_eq_true, false_iff, Nat.not_lt] at t1 t2
    omega
  · intro h
    rcases lexLt_trichotomy (padNum w n) (padNum w m) with h' | h' | h'
    · rw [lexLt_padNum] at h'; omega
    · exact h'
    · rw [lexLt_padNum] at h'; omega

theorem readN_padNum (w : Nat) (acc n : Nat) (rest : List Char) :
    readNDigits w acc (padNum w n ++ rest) =
      some (acc * 10 ^ w + n % 10 ^ w, rest) := by
  induction w generalizing acc n with
  | zero => simp [padNum, readNDigits, Nat.mod_one]
  | succ w ih =>
      have hd : n / 10 ^ w % 10 < 10 := Nat.mod_lt _ (by norm_num)
      have hc : (digitChar10 (n / 10 ^ w % 10)).toNat = 48 + n / 10 ^ w % 10 :=
        digitChar10_toNat hd
      simp only [padNum, List.cons_append, readNDigits, hc]
      rw [if_pos (by omega)]
      simp only [List.append_eq]
      rw [ih]
      have h1 : 48 + n / 10 ^ w % 10 - 48 = n / 10 ^ w % 10 := by omega
      have h2 : (acc * 10 + n / 10 ^ w % 10) * 10 ^ w + n % 10 ^ w =
          acc * 10 ^ (w + 1) + n % 10 ^ (w + 1) := by
        rw [pow_succ, Nat.mod_mul]; ring
      rw [h1, h2]

/-! ## Lemmas about calendar arithmetic -/

theorem isLeap_iff (y : Nat) :
    isLeap y = true ↔ y % 4 = 0 ∧ (y % 100 ≠ 0 ∨ y % 400 = 0) := by
  simp [isLeap]

set_option maxHeartbeats 4000000 in
theorem daysBeforeYear_succ (y : Nat) (h : 1 ≤ y) :
    daysBeforeYear (y + 1) =
      daysBeforeYear y + 365 + (if isLeap y = true then 1 else 0) := by
  unfold daysBeforeYear
  by_cases hl : isLeap y = true
  · rw [if_pos hl]; rw [isLeap_iff] at hl; omega
  · rw [if_neg hl]; rw [isLeap_iff] at hl; push_neg at hl; omega

theorem daysBeforeYear_mono {y1 y2 : Nat} (h : y1 ≤ y2) :
    daysBeforeYear y1 ≤ daysBeforeYear y2 := by
  have h4 : (y1 - 1) / 4 ≤ (y2 - 1) / 4 :=
    Nat.div_le_div_right (by omega)
  have h400 : (y1 - 1) / 400 ≤ (y2 - 1) / 400 :=
    Nat.div_le_div_right (by omega)
  unfold daysBeforeYear
  omega

theorem doy_le {y m d : Nat} (h : validDate y m d) :
    daysBeforeMonth m + leapAdj y m + d ≤
      365 + (if isLeap y = true then 1 else 0) := by
  obtain ⟨-, -, hm1, hm2, -, hd2⟩ := h
  unfold daysInMonth at hd2
  unfold leapAdj daysBeforeMonth
  interval_cases m <;> by_cases hl : isLeap y = true <;> simp_all <;> omega

theorem doy_pos {y m d : Nat} (h : validDate y m d) :
    1 ≤ daysBeforeMonth m + leapAdj y m + d := by
  obtain ⟨-, -, -, -, hd1, -⟩ := h
  omega

theorem doy_lt_of_month_lt {y m1 d1 m2 d2 : Nat}
    (h1 : validDate y m1 d1) (h2 : validDate y m2 d2) (hm : m1 < m2) :
    daysBeforeMonth m1 + leapAdj y m1 + d1 <
      daysBeforeMonth m2 + leapAdj y m2 + d2 := by
  obtain ⟨-, -, hm11, hm12, -, hd12⟩ := h1
  obtain ⟨-, -, hm21, hm22, hd21, -⟩ := h2
  unfold daysInMonth at hd12
  unfold leapAdj daysBeforeMonth
  interval_cases m1 <;> interval_cases m2 <;>
    by_cases hl : isLeap y = true <;> simp_all <;> omega

theorem ymd2ord_lt {y1 m1 d1 y2 m2 d2 : Nat}
    (h1 : validDate y1 m1 d1) (h2 : validDate y2 m2 d2)
    (hlex : y1 < y2 ∨ (y1 = y2 ∧ (m1 < m2 ∨ (m1 = m2 ∧ d1 < d2)))) :
    ymd2ord y1 m1 d1 < ymd2ord y2 m2 d2 := by
  unfold ymd2ord
  rcases hlex with hy | ⟨rfl, hm | ⟨rfl, hd⟩⟩
  · have hstep : daysBeforeYear (y1 + 1) =
        daysBeforeYear y1 + 365 + (if isLeap y1 = true then 1 else 0) :=
      daysBeforeYear_succ y1 h1.1
    have hmono : daysBeforeYear (y1 + 1) ≤ daysBeforeYear y2 :=
      daysBeforeYear_mono hy
    have hle := doy_le h1
    have hpos := doy_pos h2
    omega
  · have := doy_lt_of_month_lt h1 h2 hm
    omega
  · omega

theorem ymd2ord_lt_iff {y1 m1 d1 y2 m2 d2 : Nat}
    (h1 : validDate y1 m1 d1) (h2 : validDate y2 m2 d2) :
    ymd2ord y1 m1 d1 < ymd2ord y2 m2 d2 ↔
      (y1 < y2 ∨ (y1 = y2 ∧ (m1 < m2 ∨ (m1 = m2 ∧ d1 < d2)))) := by
  constructor
  · intro h
    rcases Nat.lt_trichotomy y1 y2 with hy | rfl | hy
    · exact Or.inl hy
    · rcases Nat.lt_trichotomy m1 m2 with hm | rfl | hm
      · exact Or.inr ⟨rfl, Or.inl hm⟩
      · rcases Nat.lt_trichotomy d1 d2 with hd | rfl | hd
        · exact Or.inr ⟨rfl, Or.inr ⟨rfl, hd⟩⟩
        · omega
        · have := ymd2ord_lt h2 h1 (Or.inr ⟨rfl, Or.inr ⟨rfl, hd⟩⟩); omega
      · have := ymd2ord_lt h2 h1 (Or.inr ⟨rfl, Or.inl hm⟩); omega
    · have := ymd2ord_lt h2 h1 (Or.inl hy); omega
  · exact ymd2ord_lt h1 h2

theorem ymd2ord_injOn {y1 m1 d1 y2 m2 d2 : Nat}
    (h1 : validDate y1 m1 d1) (h2 : validDate y2 m2 d2)
    (h : ymd2ord y1 m1 d1 = ymd2ord y2 m2 d2) :
    y1 = y2 ∧ m1 = m2 ∧ d1 = d2 := by
  rcases Nat.lt_trichotomy y1 y2 with hy | rfl | hy
  · have := ymd2ord_lt h1 h2 (Or.inl hy); omega
  · rcases Nat.lt_trichotomy m1 m2 with hm | rfl | hm
    · have := ymd2ord_lt h1 h2 (Or.inr ⟨rfl, Or.inl hm⟩); omega
    · rcases Nat.lt_trichotomy d1 d2 with hd | rfl | hd
      · have := ymd2ord_lt h1 h2 (Or.inr ⟨rfl, Or.inr ⟨rfl, hd⟩⟩); omega
      · exact ⟨rfl, rfl, rfl⟩
      · have := ymd2ord_lt h2 h1 (Or.inr ⟨rfl, Or.inr ⟨rfl, hd⟩⟩); omega
    · have := ymd2ord_lt h2 h1 (Or.inr ⟨rfl, Or.inl hm⟩); omega
  · have := ymd2ord_lt h2 h1 (Or.inl hy); omega

theorem yearLen_eq (y : Nat) :
    yearLen y = 365 + (if isLeap y = true then 1 else 0) := by
  unfold yearLen; split <;> simp_all

theorem findYear_spec :
    ∀ n y : Nat, 1 ≤ n → 1 ≤ y →
      daysBeforeYear (findYear y n).1 + (findYear y n).2 =
          daysBeforeYear y + n ∧
        1 ≤ (findYear y n).2 ∧
        (findYear y n).2 ≤ yearLen (findYear y n).1 ∧
        y ≤ (findYear y n).1 := by
  intro n
  induction n using Nat.strong_induction_on with
  | _ n ih =>
      intro y hn hy
      rw [findYear]
      split
      · next h =>
          have hlen : yearLen y = 365 + (if isLeap y = true then 1 else 0) :=
            yearLen_eq y
          have hrec := ih (n - yearLen y) (by omega) (y + 1) (by omega) (by omega)
          obtain ⟨e1, e2, e3, e4⟩ := hrec
          have hstep := daysBeforeYear_succ y hy
          exact ⟨by omega, e2, e3, by omega⟩
      · next h =>
          exact ⟨rfl, hn, (by omega : n ≤ yearLen y), le_refl y⟩

theorem monthStep (y m : Nat) (h1 : 1 ≤ m) (h2 : m ≤ 11) :
    daysBeforeMonth (m + 1) + leapAdj y (m + 1) =
      daysBeforeMonth m + leapAdj y m + daysInMonth y m := by
  unfold daysBeforeMonth leapAdj daysInMonth
  interval_cases m <;> by_cases hl : isLeap y = true <;> simp_all

theorem findMonth_spec :
    ∀ k m y doy : Nat, m + k = 12 → 1 ≤ m → 1 ≤ doy →
      daysBeforeMonth m + leapAdj y m + doy ≤
          365 + (if isLeap y = true then 1 else 0) →
      1 ≤ (findMonth y m doy).1 ∧
        (findMonth y m doy).1 ≤ 12 ∧
        1 ≤ (findMonth y m doy).2 ∧
        (findMonth y m doy).2 ≤ daysInMonth y (findMonth y m doy).1 ∧
        daysBeforeMonth (findMonth y m doy).1 +
            leapAdj y (findMonth y m doy).1 + (findMonth y m doy).2 =
          daysBeforeMonth m + leapAdj y m + doy := by
  intro k
  induction k with
  | zero =>
      intro m y doy hm12 hm1 hdoy hbound
      have hm : m = 12 := by omega
      subst hm
      rw [findMonth]
      rw [if_neg (by omega)]
      refine ⟨by omega, by omega, hdoy, ?_, rfl⟩
      have hle : doy ≤ 31 := by
        unfold daysBeforeMonth leapAdj at hbound
        by_cases hl : isLeap y = true <;> simp_all <;> omega
      unfold daysInMonth
      norm_num
      omega
  | succ k ih =>
      intro m y doy hm12 hm1 hdoy hbound
      rw [findMonth]
      split
      · next hcond =>
          obtain ⟨hlt, hm12'⟩ := hcond
          have hstep := monthStep y m hm1 (by omega)
          have hrec := ih (m + 1) y (doy - daysInMonth y m) (by omega) (by omega)
            (by omega) (by rw [hstep]; omega)
          obtain ⟨e1, e2, e3, e4, e5⟩ := hrec
          exact ⟨by omega, e2, e3, e4, by rw [e5, hstep]; omega⟩
      · next hcond =>
          have hle : doy ≤ daysInMonth y m := by
            rcases Decidable.not_and_iff_or_not.mp hcond with h | h
            · omega
            · omega
          exact ⟨by omega, by omega, hdoy, hle, rfl⟩

theorem daysBeforeYear_one : daysBeforeYear 1 = 0 := by
  unfold daysBeforeYear; norm_num

theorem daysBeforeYear_tenK : daysBeforeYear 10000 = 3652059 := by
  unfold daysBeforeYear; norm_num

theorem ord2ymd_spec (n : Nat) (h1 : 1 ≤ n) (h2 : n ≤ 3652059) :
    validDate (ord2ymd n).1 (ord2ymd n).2.1 (ord2ymd n).2.2 ∧
      ymd2ord (ord2ymd n).1 (ord2ymd n).2.1 (ord2ymd n).2.2 = n := by
  show validDate (findYear 1 n).1
      (findMonth (findYear 1 n).1 1 (findYear 1 n).2).1
      (findMonth (findYear 1 n).1 1 (findYear 1 n).2).2 ∧
    ymd2ord (findYear 1 n).1
      (findMonth (findYear 1 n).1 1 (findYear 1 n).2).1
      (findMonth (findYear 1 n).1 1 (findYear 1 n).2).2 = n
  obtain ⟨heq, hy1, hy2, hy3⟩ := findYear_spec n 1 h1 (by omega)
  rw [daysBeforeYear_one] at heq
  have hcap : (findYear 1 n).1 ≤ 9999 := by
    by_contra hc
    have hmono : daysBeforeYear 10000 ≤ daysBeforeYear (findYear 1 n).1 :=
      daysBeforeYear_mono (by omega)
    rw [daysBeforeYear_tenK] at hmono
    omega
  obtain ⟨hq1, hq2, hq3, hq4, hq5⟩ :=
    findMonth_spec 11 1 (findYear 1 n).1 (findYear 1 n).2 (by omega) (by omega)
      (by omega)
      (by
        rw [yearLen_eq] at hy2
        unfold daysBeforeMonth leapAdj
        simp only [show ¬ (2 < 1) from by omega, false_and, if_false]
        omega)
  have hP1 : daysBeforeMonth 1 + leapAdj (findYear 1 n).1 1 = 0 := by
    unfold daysBeforeMonth leapAdj
    simp only [show ¬ (2 < 1) from by omega, false_and, if_false]
  constructor
  · exact ⟨hy3, hcap, hq1, hq2, hq3, hq4⟩
  · unfold ymd2ord
    omega

/-! ## Lemmas about datetime values -/

theorem validB_fields {t : PyDateTime} (h : t.validB = true) :
    validDate t.year t.month t.day ∧ t.hour ≤ 23 ∧ t.minute ≤ 59 ∧
      t.second ≤ 59 ∧ t.micro ≤ 999999 := by
  unfold PyDateTime.validB at h
  simp only [Bool.and_eq_true, decide_eq_true_eq] at h
  obtain ⟨⟨⟨⟨⟨hv, hh⟩, hmi⟩, hs⟩, hmic⟩, -⟩ := h
  exact ⟨hv, hh, hmi, hs, hmic⟩

theorem fromisoformat_validB {s : String} {t : PyDateTime}
    (h : fromisoformat s = some t) : t.validB = true := by
  unfold fromisoformat at h
  cases hp : parseFields s.data with
  | none => simp only [hp] at h; cases h
  | some t' =>
      simp only [hp] at h
      by_cases hv : t'.validB = true
      · rw [if_pos hv] at h
        obtain rfl : t' = t := Option.some.inj h
        exact hv
      · rw [if_neg hv] at h; cases h

theorem parse_ts_validB {s : String} {t : PyDateTime}
    (h : parse_ts s = some t) : t.validB = true := by
  unfold parse_ts at h
  by_cases he : s = ""
  · rw [if_pos he] at h; cases h
  · rw [if_neg he] at h; exact fromisoformat_validB h

theorem dtLt_iff (a b : PyDateTime) :
    dtLt a b = true ↔ epochMicros a < epochMicros b := by
  unfold dtLt
  exact decide_eq_true_iff

theorem epochMicros_utc (t : PyDateTime) (hz : t.tzoff = some 0) :
    epochMicros t =
      ((ymd2ord t.year t.month t.day : Int) * 86400
        + t.hour * 3600 + t.minute * 60 + t.second) * 1000000 + t.micro := by
  unfold epochMicros
  rw [hz]
  norm_num

theorem epochMicros_injOn {a b : PyDateTime}
    (hva : a.validB = true) (hvb : b.validB = true)
    (hza : a.tzoff = some 0) (hzb : b.tzoff = some 0)
    (h : epochMicros a = epochMicros b) : a = b := by
  obtain ⟨hda, hha, hmia, hsa, hmica⟩ := validB_fields hva
  obtain ⟨hdb, hhb, hmib, hsb, hmicb⟩ := validB_fields hvb
  rw [epochMicros_utc a hza, epochMicros_utc b hzb] at h
  have hord : ymd2ord a.year a.month a.day = ymd2ord b.year b.month b.day := by
    by_contra hne
    rcases Nat.lt_or_ge (ymd2ord a.year a.month a.day)
        (ymd2ord b.year b.month b.day) with h' | h'
    · omega
    · have h'' : ymd2ord b.year b.month b.day < ymd2ord a.year a.month a.day := by
        omega
      omega
  obtain ⟨hy, hm, hd⟩ := ymd2ord_injOn hda hdb hord
  have htime : a.hour = b.hour ∧ a.minute = b.minute ∧ a.second = b.second ∧
      a.micro = b.micro := by
    rw [hord] at h
    constructor
    · omega
    constructor
    · omega
    constructor
    · omega
    · omega
  obtain ⟨hh, hmi, hs, hmic⟩ := htime
  cases a; cases b
  simp_all

/-! ## The isoformat sort key orders rollups by instant

`gdocs_export.py` sorts the summary rows by the string
`last_activity_dt.isoformat()`; for the UTC datetimes the pipeline
produces, that string order coincides with instant order. -/

theorem lexLt_pad_append (w n m : Nat) (r s : List Char) :
    lexLt (padNum w n ++ r) (padNum w m ++ s) = true ↔
      n % 10 ^ w < m % 10 ^ w ∨ (n % 10 ^ w = m % 10 ^ w ∧ lexLt r s = true) := by
  rw [lexLt_append _ _ r s (by rw [padNum_length, padNum_length])]
  rw [lexLt_padNum, padNum_eq_iff]

theorem lexLt_cons_same (c : Char) (r s : List Char) :
    lexLt (c :: r) (c :: s) = true ↔ lexLt r s = true := by
  rw [lexLt_cons]; simp

theorem daysInMonth_le31 (y m : Nat) : daysInMonth y m ≤ 31 := by
  unfold daysInMonth
  split
  · split <;> omega
  · split <;> omega

theorem isoformatDT_data (t : PyDateTime) (hz : t.tzoff = some 0)
    (hm : t.micro = 0) :
    (isoformatDT t).data =
      padNum 4 t.year ++ '-' :: (padNum 2 t.month ++ '-' :: (padNum 2 t.day ++
        'T' :: (padNum 2 t.hour ++ ':' :: (padNum 2 t.minute ++ ':' ::
        (padNum 2 t.second ++ '+' :: (padNum 2 0 ++ ':' :: padNum 2 0)))))) := by
  unfold isoformatDT
  rw [hz, hm]
  norm_num

theorem epochMicros_lt_iff {a b : PyDateTime}
    (hva : a.validB = true) (hvb : b.validB = true)
    (hza : a.tzoff = some 0) (hzb : b.tzoff = some 0) :
    epochMicros a < epochMicros b ↔
      (ymd2ord a.year a.month a.day < ymd2ord b.year b.month b.day ∨
        (ymd2ord a.year a.month a.day = ymd2ord b.year b.month b.day ∧
          (a.hour * 3600 + a.minute * 60 + a.second) * 1000000 + a.micro <
            (b.hour * 3600 + b.minute * 60 + b.second) * 1000000 + b.micro)) := by
  obtain ⟨-, hha, hmia, hsa, hmica⟩ := validB_fields hva
  obtain ⟨-, hhb, hmib, hsb, hmicb⟩ := validB_fields hvb
  rw [epochMicros_utc a hza, epochMicros_utc b hzb]
  omega

theorem isoformat_lt_iff {a b : PyDateTime}
    (hva : a.validB = true) (hvb : b.validB = true)
    (hza : a.tzoff = some 0) (hzb : b.tzoff = some 0)
    (hma : a.micro = 0) (hmb : b.micro = 0) :
    strLt (isoformatDT a) (isoformatDT b) = true ↔
      epochMicros a < epochMicros b := by
  obtain ⟨hda, hha, hmia, hsa, -⟩ := validB_fields hva
  obtain ⟨hdb, hhb, hmib, hsb, -⟩ := validB_fields hvb
  have hmo4a : a.year % 10 ^ 4 = a.year := Nat.mod_eq_of_lt (by
    have := hda.2.1; norm_num; omega)
  have hmo4b : b.year % 10 ^ 4 = b.year := Nat.mod_eq_of_lt (by
    have := hdb.2.1; norm_num; omega)
  have hmoa : a.month % 10 ^ 2 = a.month := Nat.mod_eq_of_lt (by
    have := hda.2.2.2.1; norm_num; omega)
  have hmob : b.month % 10 ^ 2 = b.month := Nat.mod_eq_of_lt (by
    have := hdb.2.2.2.1; norm_num; omega)
  have hdaylim := daysInMonth_le31 a.year a.month
  have hdaylim' := daysInMonth_le31 b.year b.month
  have hdya : a.day % 10 ^ 2 = a.day := Nat.mod_eq_of_lt (by
    have := hda.2.2.2.2.2; norm_num; omega)
  have hdyb : b.day % 10 ^ 2 = b.day := Nat.mod_eq_of_lt (by
    have := hdb.2.2.2.2.2; norm_num; omega)
  have hhoa : a.hour % 10 ^ 2 = a.hour := Nat.mod_eq_of_lt (by norm_num; omega)
  have hhob : b.hour % 10 ^ 2 = b.hour := Nat.mod_eq_of_lt (by norm_num; omega)
  have hmina : a.minute % 10 ^ 2 = a.minute := Nat.mod_eq_of_lt (by norm_num; omega)
  have hminb : b.minute % 10 ^ 2 = b.minute := Nat.mod_eq_of_lt (by norm_num; omega)
  have hseca : a.second % 10 ^ 2 = a.second := Nat.mod_eq_of_lt (by norm_num; omega)
  have hsecb : b.second % 10 ^ 2 = b.second := Nat.mod_eq_of_lt (by norm_num; omega)
  unfold strLt
  rw [isoformatDT_data a hza hma, isoformatDT_data b hzb hmb]
  rw [lexLt_pad_append, hmo4a, hmo4b, lexLt_cons_same,
    lexLt_pad_append, hmoa, hmob, lexLt_cons_same,
    lexLt_pad_append, hdya, hdyb, lexLt_cons_same,
    lexLt_pad_append, hhoa, hhob, lexLt_cons_same,
    lexLt_pad_append, hmina, hminb, lexLt_cons_same,
    lexLt_pad_append, hseca, hsecb, lexLt_cons_same,
    lexLt_irrefl]
  rw [epochMicros_lt_iff hva hvb hza hzb]
  have hordIff := ymd2ord_lt_iff hda hdb
  have hordInj := fun h => ymd2ord_injOn hda hdb h
  rw [hordIff]
  constructor
  · rintro (hy | ⟨hy, hmo | ⟨hmo, hd | ⟨hd, hrest⟩⟩⟩)
    · exact Or.inl (Or.inl hy)
    · exact Or.inl (Or.inr ⟨hy, Or.inl hmo⟩)
    · exact Or.inl (Or.inr ⟨hy, Or.inr ⟨hmo, hd⟩⟩)
    · refine Or.inr ⟨by rw [hy, hmo, hd], ?_⟩
      rw [hma, hmb]
      rcases hrest with hh | ⟨hh, hmi | ⟨hmi, hs | ⟨hs, hfalse⟩⟩⟩
      · omega
      · omega
      · omega
      · exact absurd hfalse (by simp)
  · rintro (hdate | ⟨hord, htime⟩)
    · rcases hdate with hy | ⟨hy, hmo | ⟨hmo, hd⟩⟩
      · exact Or.inl hy
      · exact Or.inr ⟨hy, Or.inl hmo⟩
      · exact Or.inr ⟨hy, Or.inr ⟨hmo, Or.inl hd⟩⟩
    · obtain ⟨hy, hmo, hd⟩ := hordInj hord
      refine Or.inr ⟨hy, Or.inr ⟨hmo, Or.inr ⟨hd, ?_⟩⟩⟩
      rw [hma, hmb] at htime
      rcases Nat.lt_trichotomy a.hour b.hour with hh | hh | hh
      · exact Or.inl hh
      · rcases Nat.lt_trichotomy a.minute b.minute with hmi | hmi | hmi
        · exact Or.inr ⟨hh, Or.inl hmi⟩
        · rcases Nat.lt_trichotomy a.second b.second with hs | hs | hs
          · exact Or.inr ⟨hh, Or.inr ⟨hmi, Or.inl hs⟩⟩
          · omega
          · omega
        · omega
      · omega

/-! ## Lemmas about deduplication -/

namespace GDocs

theorem mem_dedupeAux_not_seen :
    ∀ (l : List DocRow) (seen : List (String × String × String)) (r : DocRow),
      r ∈ dedupeAux seen l → rowKey r ∉ seen := by
  intro l
  induction l with
  | nil => intro seen r h; cases h
  | cons x xs ih =>
      intro seen r h
      simp only [dedupeAux] at h
      by_cases hx : rowKey x ∈ seen
      · rw [if_pos hx] at h; exact ih seen r h
      · rw [if_neg hx] at h
        rcases List.mem_cons.mp h with rfl | h'
        · exact hx
        · have hns := ih _ r h'
          intro hc
          exact hns (List.mem_cons_of_mem _ hc)

theorem dedupeAux_sublist :
    ∀ (l : List DocRow) (seen), (dedupeAux seen l).Sublist l := by
  intro l
  induction l with
  | nil => intro seen; simp [dedupeAux]
  | cons x xs ih =>
      intro seen
      simp only [dedupeAux]
      by_cases hx : rowKey x ∈ seen
      · rw [if_pos hx]
        exact (ih seen).trans (List.sublist_cons_self x xs)
      · rw [if_neg hx]
        exact (ih _).cons₂ x

theorem find?_cons_eq {α : Type} (p : α → Bool) (a : α) (l : List α) :
    (a :: l).find? p = if p a = true then some a else l.find? p := by
  by_cases h : p a = true
  · rw [if_pos h]; exact List.find?_cons_of_pos _ h
  · rw [if_neg h]; exact List.find?_cons_of_neg _ h

theorem dedupeAux_find :
    ∀ (l : List DocRow) (seen) (r' : DocRow), r' ∈ dedupeAux seen l →
      l.find? (fun x => rowKey x == rowKey r') = some r' := by
  intro l
  induction l with
  | nil => intro seen r' h; cases h
  | cons x xs ih =>
      intro seen r' h
      simp only [dedupeAux] at h
      by_cases hx : rowKey x ∈ seen
      · rw [if_pos hx] at h
        have hne : ¬ ((rowKey x == rowKey r') = true) := by
          rw [beq_iff_eq]
          intro he
          exact (mem_dedupeAux_not_seen xs seen r' h) (he ▸ hx)
        rw [find?_cons_eq, if_neg hne]
        exact ih seen r' h
      · rw [if_neg hx] at h
        rcases List.mem_cons.mp h with rfl | h'
        · rw [find?_cons_eq, if_pos (by simp)]
        · have hnotin := mem_dedupeAux_not_seen xs _ r' h'
          have hne : ¬ ((rowKey x == rowKey r') = true) := by
            rw [beq_iff_eq]
            intro he
            exact hnotin (by rw [← he]; exact List.mem_cons_self _ _)
          rw [find?_cons_eq, if_neg hne]
          exact ih _ r' h'

theorem dedupeAux_countP :
    ∀ (l : List DocRow) (seen) (k : String × String × String),
      (dedupeAux seen l).countP (fun r => rowKey r == k) =
        if k ∉ seen ∧ l.any (fun r => rowKey r == k) = true then 1 else 0 := by
  intro l
  induction l with
  | nil => intro seen k; simp [dedupeAux]
  | cons x xs ih =>
      intro seen k
      simp only [dedupeAux]
      by_cases hx : rowKey x ∈ seen
      · rw [if_pos hx, ih]
        by_cases hkx : (rowKey x == k) = true
        · have hk : k ∈ seen := beq_iff_eq.mp hkx ▸ hx
          simp [List.any_cons, hk]
        · simp [List.any_cons, hkx]
      · rw [if_neg hx, List.countP_cons, ih]
        by_cases hkx : (rowKey x == k) = true
        · have hkk : rowKey x = k := beq_iff_eq.mp hkx
          have hcond1 : ¬ (k ∉ rowKey x :: seen ∧
              xs.any (fun r => rowKey r == k) = true) := by
            rintro ⟨hc, -⟩
            exact hc (hkk ▸ List.mem_cons_self _ _)
          have hks : k ∉ seen := hkk ▸ hx
          have hcond2 : k ∉ seen ∧ (x :: xs).any (fun r => rowKey r == k) = true := by
            refine ⟨hks, ?_⟩
            simp [List.any_cons, hkx]
          rw [if_neg hcond1, if_pos hcond2, if_pos hkx]
        · have hmem : (k ∉ rowKey x :: seen) ↔ (k ∉ seen) := by
            constructor
            · intro hc hcs; exact hc (List.mem_cons_of_mem _ hcs)
            · intro hc hcs
              rcases List.mem_cons.mp hcs with he | he
              · exact hkx (beq_iff_eq.mpr (he ▸ rfl))
              · exact hc he
          have hany : (x :: xs).any (fun r => rowKey r == k) =
              xs.any (fun r => rowKey r == k) := by
            simp only [List.any_cons, Bool.or_eq_true]
            rw [Bool.eq_iff_iff]
            simp [hkx]
          have hiff : (k ∉ rowKey x :: seen ∧
                xs.any (fun r => rowKey r == k) = true) ↔
              (k ∉ seen ∧ (x :: xs).any (fun r => rowKey r == k) = true) := by
            rw [hmem, hany]
          rw [if_neg hkx, Nat.add_zero, if_congr hiff rfl rfl]

theorem dedupeAux_idem :
    ∀ (l : List DocRow) (seen),
      dedupeAux seen (dedupeAux seen l) = dedupeAux seen l := by
  intro l
  induction l with
  | nil => intro seen; simp [dedupeAux]
  | cons x xs ih =>
      intro seen
      simp only [dedupeAux]
      by_cases hx : rowKey x ∈ seen
      · rw [if_pos hx]; exact ih seen
      · rw [if_neg hx]
        simp only [dedupeAux]
        rw [if_neg hx, ih]

theorem dedupeAux_pairwise :
    ∀ (l : List DocRow) (seen),
      (dedupeAux seen l).Pairwise (fun a b => rowKey a ≠ rowKey b) := by
  intro l
  induction l with
  | nil => intro seen; simp [dedupeAux]
  | cons x xs ih =>
      intro seen
      simp only [dedupeAux]
      by_cases hx : rowKey x ∈ seen
      · rw [if_pos hx]; exact ih seen
      · rw [if_neg hx]
        refine List.Pairwise.cons ?_ (ih _)
        intro b hb heq
        exact (mem_dedupeAux_not_seen xs _ b hb) (heq ▸ List.mem_cons_self _ _)

end GDocs

/-! ## Lemmas about the summary sort -/

theorem lexLt_trans : ∀ {a b c : List Char},
    lexLt a b = true → lexLt b c = true → lexLt a c = true := by
  intro a
  induction a with
  | nil =>
      intro b c h1 h2
      cases b with
      | nil => simp [lexLt] at h1
      | cons y ys =>
          cases c with
          | nil => simp [lexLt] at h2
          | cons z zs => rfl
  | cons x xs ih =>
      intro b c h1 h2
      cases b with
      | nil => simp [lexLt] at h1
      | cons y ys =>
          cases c with
          | nil => simp [lexLt] at h2
          | cons z zs =>
              rw [lexLt_cons] at h1 h2 ⊢
              rcases h1 with h1 | ⟨rfl, h1⟩
              · rcases h2 with h2 | ⟨rfl, h2⟩
                · exact Or.inl (by omega)
                · exact Or.inl h1
              · rcases h2 with h2 | ⟨rfl, h2⟩
                · exact Or.inl h2
                · exact Or.inr ⟨rfl, ih h1 h2⟩

namespace GDocs

theorem insertDesc_perm (x : SummaryRow) (l : List SummaryRow) :
    (insertDesc x l).Perm (x :: l) := by
  induction l with
  | nil => simp [insertDesc]
  | cons y ys ih =>
      simp only [insertDesc]
      by_cases h : strLt y.lastSort x.lastSort = true
      · rw [if_pos h]
      · rw [if_neg h]
        exact (ih.cons y).trans (List.Perm.swap x y ys)

theorem sortSummaries_perm (l : List SummaryRow) :
    (sortSummaries l).Perm l := by
  induction l with
  | nil => simp [sortSummaries]
  | cons x xs ih =>
      simp only [sortSummaries]
      exact (insertDesc_perm x (sortSummaries xs)).trans (ih.cons x)

theorem insertDesc_pairwise (x : SummaryRow) (l : List SummaryRow)
    (h : l.Pairwise (fun a b => strLt a.lastSort b.lastSort = false)) :
    (insertDesc x l).Pairwise
      (fun a b => strLt a.lastSort b.lastSort = false) := by
  induction l with
  | nil => simp [insertDesc]
  | cons y ys ih =>
      obtain ⟨hy, hys⟩ := List.pairwise_cons.mp h
      simp only [insertDesc]
      by_cases hc : strLt y.lastSort x.lastSort = true
      · rw [if_pos hc]
        refine List.Pairwise.cons ?_ h
        intro z hz
        rcases List.mem_cons.mp hz with rfl | hz'
        · exact lexLt_asymm hc
        · have hyz := hy z hz'
          by_contra hlt
          have hlt' : strLt x.lastSort z.lastSort = true := by
            cases hxz : strLt x.lastSort z.lastSort
            · exact absurd hxz hlt
            · rfl
          have hcontra : strLt y.lastSort z.lastSort = true := lexLt_trans hc hlt'
          rw [hyz] at hcontra
          cases hcontra
      · rw [if_neg hc]
        refine List.Pairwise.cons ?_ (ih hys)
        intro z hz
        have hz' : z ∈ x :: ys := (insertDesc_perm x ys).subset hz
        rcases List.mem_cons.mp hz' with rfl | hzys
        · cases hxz : strLt y.lastSort z.lastSort
          · rfl
          · exact absurd hxz hc
        · exact hy z hzys

theorem sortSummaries_pairwise (l : List SummaryRow) :
    (sortSummaries l).Pairwise
      (fun a b => strLt a.lastSort b.lastSort = false) := by
  induction l with
  | nil => simp [sortSummaries]
  | cons x xs ih =>
      simp only [sortSummaries]
      exact insertDesc_pairwise x (sortSummaries xs) ih

/-! ## Lemmas about the per-file aggregation fold -/

theorem aggText_spec (d : FileAgg) (r : DocRow) :
    (aggText d r).file_id = d.file_id ∧
      (aggText d r).first_activity_dt = d.first_activity_dt ∧
      (aggText d r).last_activity_dt = d.last_activity_dt ∧
      (aggText d r).creates = d.creates ∧
      (aggText d r).edits = d.edits ∧
      (aggText d r).comments = d.comments ∧
      (aggText d r).total_actions = d.total_actions ∧
      (aggText d r).active_days = d.active_days := by
  unfold aggText
  split <;> split <;> exact ⟨rfl, rfl, rfl, rfl, rfl, rfl, rfl, rfl⟩

theorem aggTime_unchanged (d : FileAgg) (r : DocRow) :
    (aggTime d r).file_id = d.file_id ∧
      (aggTime d r).title = d.title ∧
      (aggTime d r).url = d.url ∧
      (aggTime d r).creates = d.creates ∧
      (aggTime d r).edits = d.edits ∧
      (aggTime d r).comments = d.comments ∧
      (aggTime d r).total_actions = d.total_actions := by
  unfold aggTime
  dsimp only
  split
  · split <;> split <;> exact ⟨rfl, rfl, rfl, rfl, rfl, rfl, rfl⟩
  · exact ⟨rfl, rfl, rfl, rfl, rfl, rfl, rfl⟩

theorem aggTime_first (d : FileAgg) (r : DocRow) :
    (aggTime d r).first_activity_dt =
      match parse_ts r.timestamp with
      | none => d.first_activity_dt
      | some t => minStep d.first_activity_dt t := by
  unfold aggTime minStep
  dsimp only
  cases hp : parse_ts r.timestamp with
  | none => rfl
  | some t =>
      cases hf : d.first_activity_dt <;>
        simp only [hf] <;> (repeat' split) <;> simp_all

theorem aggTime_last (d : FileAgg) (r : DocRow) :
    (aggTime d r).last_activity_dt =
      match parse_ts r.timestamp with
      | none => d.last_activity_dt
      | some t => maxStep d.last_activity_dt t := by
  unfold aggTime maxStep
  dsimp only
  cases hp : parse_ts r.timestamp with
  | none => rfl
  | some t =>
      cases hl : d.last_activity_dt <;>
        simp only [hl] <;> (repeat' split) <;> simp_all

theorem aggTime_days (d : FileAgg) (r : DocRow) :
    (aggTime d r).active_days =
      match parse_ts r.timestamp with
      | none => d.active_days
      | some t => insert (dateIsoDT t) d.active_days := by
  unfold aggTime
  dsimp only
  cases hp : parse_ts r.timestamp with
  | none => rfl
  | some t => (repeat' split) <;> simp_all

theorem aggCount_spec (d : FileAgg) (r : DocRow) :
    (aggCount d r).file_id = d.file_id ∧
      (aggCount d r).title = d.title ∧
      (aggCount d r).url = d.url ∧
      (aggCount d r).first_activity_dt = d.first_activity_dt ∧
      (aggCount d r).last_activity_dt = d.last_activity_dt ∧
      (aggCount d r).total_actions = d.total_actions ∧
      (aggCount d r).active_days = d.active_days ∧
      (aggCount d r).creates =
        d.creates + (if r.action = "CREATE" then 1 else 0) ∧
      (aggCount d r).edits = d.edits + (if r.action = "EDIT" then 1 else 0) ∧
      (aggCount d r).comments =
        d.comments + (if r.action = "COMMENT" then 1 else 0) := by
  have ne1 : ("CREATE" : String) ≠ "EDIT" := by decide
  have ne2 : ("CREATE" : String) ≠ "COMMENT" := by decide
  have ne3 : ("EDIT" : String) ≠ "CREATE" := by decide
  have ne4 : ("EDIT" : String) ≠ "COMMENT" := by decide
  have ne5 : ("COMMENT" : String) ≠ "CREATE" := by decide
  have ne6 : ("COMMENT" : String) ≠ "EDIT" := by decide
  unfold aggCount
  by_cases h1 : r.action = "CREATE"
  · simp [h1, ne1, ne2]
  · by_cases h2 : r.action = "EDIT"
    · simp [h2, ne3, ne4, h1]
    · by_cases h3 : r.action = "COMMENT"
      · simp [h3, ne5, ne6, h1, h2]
      · simp [h1, h2, h3]

theorem aggStep_spec (d : FileAgg) (r : DocRow) :
    (aggStep d r).file_id = d.file_id ∧
      (aggStep d r).total_actions = d.total_actions + 1 ∧
      (aggStep d r).creates =
        d.creates + (if r.action = "CREATE" then 1 else 0) ∧
      (aggStep d r).edits = d.edits + (if r.action = "EDIT" then 1 else 0) ∧
      (aggStep d r).comments =
        d.comments + (if r.action = "COMMENT" then 1 else 0) ∧
      ((aggStep d r).first_activity_dt =
        match parse_ts r.timestamp with
        | none => d.first_activity_dt
        | some t => minStep d.first_activity_dt t) ∧
      ((aggStep d r).last_activity_dt =
        match parse_ts r.timestamp with
        | none => d.last_activity_dt
        | some t => maxStep d.last_activity_dt t) ∧
      ((aggStep d r).active_days =
        match parse_ts r.timestamp with
        | none => d.active_days
        | some t => insert (dateIsoDT t) d.active_days) := by
  obtain ⟨t1, t2, t3, t4, t5, t6, t7, t8⟩ := aggText_spec d r
  obtain ⟨m1, m2, m3, m4, m5, m6, m7⟩ := aggTime_unchanged (aggText d r) r
  have m8 := aggTime_first (aggText d r) r
  have m9 := aggTime_last (aggText d r) r
  have m10 := aggTime_days (aggText d r) r
  obtain ⟨c1, c2, c3, c4, c5, c6, c7, c8, c9, c10⟩ :=
    aggCount_spec (aggTime (aggText d r) r) r
  unfold aggStep
  refine ⟨?_, ?_, ?_, ?_, ?_, ?_, ?_, ?_⟩
  · show (aggCount (aggTime (aggText d r) r) r).file_id = d.file_id
    rw [c1, m1, t1]
  · show (aggCount (aggTime (aggText d r) r) r).total_actions + 1 =
      d.total_actions + 1
    rw [c6, m7, t7]
  · show (aggCount (aggTime (aggText d r) r) r).creates = _
    rw [c8, m4, t4]
  · show (aggCount (aggTime (aggText d r) r) r).edits = _
    rw [c9, m5, t5]
  · show (aggCount (aggTime (aggText d r) r) r).comments = _
    rw [c10, m6, t6]
  · show (aggCount (aggTime (aggText d r) r) r).first_activity_dt = _
    rw [c4, m8, t2]
  · show (aggCount (aggTime (aggText d r) r) r).last_activity_dt = _
    rw [c5, m9, t3]
  · show (aggCount (aggTime (aggText d r) r) r).active_days = _
    rw [c7, m10, t8]

theorem foldl_aggStep_file_id (rel : List DocRow) :
    ∀ d, (rel.foldl aggStep d).file_id = d.file_id := by
  induction rel with
  | nil => intro d; rfl
  | cons r rs ih =>
      intro d
      rw [List.foldl_cons, ih, (aggStep_spec d r).1]

theorem foldl_aggStep_total (rel : List DocRow) :
    ∀ d, (rel.foldl aggStep d).total_actions =
      d.total_actions + rel.length := by
  induction rel with
  | nil => intro d; rfl
  | cons r rs ih =>
      intro d
      rw [List.foldl_cons, ih, (aggStep_spec d r).2.1, List.length_cons]
      omega

theorem foldl_aggStep_creates (rel : List DocRow) :
    ∀ d, (rel.foldl aggStep d).creates =
      d.creates + rel.countP (fun r => r.action == "CREATE") := by
  induction rel with
  | nil => intro d; rfl
  | cons r rs ih =>
      intro d
      rw [List.foldl_cons, ih, (aggStep_spec d r).2.2.1, List.countP_cons]
      have hco : (if (r.action == "CREATE") = true then 1 else 0) =
          (if r.action = "CREATE" then 1 else 0) := by
        simp [beq_iff_eq]
      omega

theorem foldl_aggStep_edits (rel : List DocRow) :
    ∀ d, (rel.foldl aggStep d).edits =
      d.edits + rel.countP (fun r => r.action == "EDIT") := by
  induction rel with
  | nil => intro d; rfl
  | cons r rs ih =>
      intro d
      rw [List.foldl_cons, ih, (aggStep_spec d r).2.2.2.1, List.countP_cons]
      have hco : (if (r.action == "EDIT") = true then 1 else 0) =
          (if r.action = "EDIT" then 1 else 0) := by
        simp [beq_iff_eq]
      omega

theorem foldl_aggStep_comments (rel : List DocRow) :
    ∀ d, (rel.foldl aggStep d).comments =
      d.comments + rel.countP (fun r => r.action == "COMMENT") := by
  induction rel with
  | nil => intro d; rfl
  | cons r rs ih =>
      intro d
      rw [List.foldl_cons, ih, (aggStep_spec d r).2.2.2.2.1, List.countP_cons]
      have hco : (if (r.action == "COMMENT") = true then 1 else 0) =
          (if r.action = "COMMENT" then 1 else 0) := by
        simp [beq_iff_eq]
      omega

theorem foldl_aggStep_first (rel : List DocRow) :
    ∀ d, (rel.foldl aggStep d).first_activity_dt =
      (tsOf rel).foldl minStep d.first_activity_dt := by
  induction rel with
  | nil => intro d; rfl
  | cons r rs ih =>
      intro d
      rw [List.foldl_cons, ih]
      have hfirst := (aggStep_spec d r).2.2.2.2.2.1
      cases hp : parse_ts r.timestamp with
      | none =>
          rw [hp] at hfirst
          rw [hfirst]
          have hts : tsOf (r :: rs) = tsOf rs := by
            unfold tsOf; rw [List.filterMap_cons, hp]
          rw [hts]
      | some t =>
          rw [hp] at hfirst
          rw [hfirst]
          have hts : tsOf (r :: rs) = t :: tsOf rs := by
            unfold tsOf; rw [List.filterMap_cons, hp]
          rw [hts, List.foldl_cons]

theorem foldl_aggStep_last (rel : List DocRow) :
    ∀ d, (rel.foldl aggStep d).last_activity_dt =
      (tsOf rel).foldl maxStep d.last_activity_dt := by
  induction rel with
  | nil => intro d; rfl
  | cons r rs ih =>
      intro d
      rw [List.foldl_cons, ih]
      have hlast := (aggStep_spec d r).2.2.2.2.2.2.1
      cases hp : parse_ts r.timestamp with
      | none =>
          rw [hp] at hlast
          rw [hlast]
          have hts : tsOf (r :: rs) = tsOf rs := by
            unfold tsOf; rw [List.filterMap_cons, hp]
          rw [hts]
      | some t =>
          rw [hp] at hlast
          rw [hlast]
          have hts : tsOf (r :: rs) = t :: tsOf rs := by
            unfold tsOf; rw [List.filterMap_cons, hp]
          rw [hts, List.foldl_cons]

theorem foldl_aggStep_days (rel : List DocRow) :
    ∀ d, (rel.foldl aggStep d).active_days =
      (daysOf rel).foldl (fun s x => insert x s) d.active_days := by
  induction rel with
  | nil => intro d; rfl
  | cons r rs ih =>
      intro d
      rw [List.foldl_cons, ih]
      have hdays := (aggStep_spec d r).2.2.2.2.2.2.2
      cases hp : parse_ts r.timestamp with
      | none =>
          rw [hp] at hdays
          rw [hdays]
          have hds : daysOf (r :: rs) = daysOf rs := by
            unfold daysOf; rw [List.filterMap_cons, hp]; rfl
          rw [hds]
      | some t =>
          rw [hp] at hdays
          rw [hdays]
          have hds : daysOf (r :: rs) = dateIsoDT t :: daysOf rs := by
            unfold daysOf; rw [List.filterMap_cons, hp]; rfl
          rw [hds, List.foldl_cons]

theorem foldl_insert_toFinset (xs : List String) :
    ∀ s : Finset String, xs.foldl (fun s x => insert x s) s = s ∪ xs.toFinset := by
  induction xs with
  | nil => intro s; simp
  | cons x xs ih =>
      intro s
      rw [List.foldl_cons, ih, List.toFinset_cons]
      ext a
      simp only [Finset.mem_union, Finset.mem_insert, List.mem_toFinset]
      tauto

theorem lookupAgg_cons (fid k : String) (v : FileAgg)
    (rest : List (String × FileAgg)) :
    lookupAgg fid ((k, v) :: rest) =
      if (k == fid) = true then some v else lookupAgg fid rest := by
  unfold lookupAgg
  rw [find?_cons_eq]
  by_cases h : (k == fid) = true <;> simp [h]

theorem lookupAgg_updateAssoc_self :
    ∀ (fs : List (String × FileAgg)) (fid : String) (r : DocRow),
      lookupAgg fid (updateAssoc fs fid r) =
        some (aggStep ((lookupAgg fid fs).getD (freshAgg fid)) r) := by
  intro fs
  induction fs with
  | nil =>
      intro fid r
      simp [updateAssoc, lookupAgg_cons, lookupAgg]
  | cons hd tl ih =>
      intro fid r
      obtain ⟨k, v⟩ := hd
      simp only [updateAssoc]
      by_cases hk : k = fid
      · subst hk
        rw [if_pos rfl, lookupAgg_cons, lookupAgg_cons]
        simp
      · rw [if_neg hk, lookupAgg_cons, lookupAgg_cons]
        have hkf : (k == fid) = false := by simp [hk]
        simp only [hkf, Bool.false_eq_true, if_false]
        exact ih fid r

theorem lookupAgg_updateAssoc_other :
    ∀ (fs : List (String × FileAgg)) (k fid : String) (r : DocRow), k ≠ fid →
      lookupAgg fid (updateAssoc fs k r) = lookupAgg fid fs := by
  intro fs
  induction fs with
  | nil =>
      intro k fid r hne
      rw [updateAssoc, lookupAgg_cons]
      have hkf : (k == fid) = false := by simp [hne]
      simp [hkf, lookupAgg]
  | cons hd tl ih =>
      intro k fid r hne
      obtain ⟨k', v⟩ := hd
      simp only [updateAssoc]
      by_cases hk' : k' = k
      · subst hk'
        rw [if_pos rfl, lookupAgg_cons, lookupAgg_cons]
        have hkf : (k' == fid) = false := by simp [hne]
        simp [hkf]
      · rw [if_neg hk', lookupAgg_cons, lookupAgg_cons]
        by_cases hk'' : (k' == fid) = true
        · simp [hk'']
        · have hkf : (k' == fid) = false := by
            cases h : (k' == fid)
            · rfl
            · exact absurd h hk''
          simp only [hkf, Bool.false_eq_true, if_false]
          exact ih k fid r hne

theorem lookupAgg_foldStep_empty :
    ∀ (l : List DocRow) (fs), lookupAgg "" fs = none →
      lookupAgg "" (l.foldl foldStep fs) = none := by
  intro l
  induction l with
  | nil => intro fs h; exact h
  | cons r rs ih =>
      intro fs h
      rw [List.foldl_cons]
      apply ih
      unfold foldStep
      by_cases hf : r.file_id = ""
      · rw [if_pos hf]; exact h
      · rw [if_neg hf]
        rw [lookupAgg_updateAssoc_other _ _ _ _ hf]
        exact h

theorem rowsFor_append_one (fid : String) (l : List DocRow) (r : DocRow) :
    rowsFor fid (l ++ [r]) =
      rowsFor fid l ++ (if (r.file_id == fid) = true then [r] else []) := by
  unfold rowsFor
  rw [List.filter_append]
  congr 1
  by_cases h : (r.file_id == fid) = true <;> simp [h]

theorem lookupAgg_aggregate (l : List DocRow) (fid : String) (hfid : fid ≠ "") :
    lookupAgg fid (aggregate l) =
      if rowsFor fid l = [] then none
      else some ((rowsFor fid l).foldl aggStep (freshAgg fid)) := by
  unfold aggregate
  induction l using List.reverseRecOn with
  | nil => simp [rowsFor, lookupAgg]
  | append_singleton l r ih =>
      rw [List.foldl_append, List.foldl_cons, List.foldl_nil]
      set fs := List.foldl foldStep [] l with hfs
      unfold foldStep
      rw [rowsFor_append_one]
      by_cases hf : r.file_id = ""
      · rw [if_pos hf]
        have hkf : (r.file_id == fid) = false := by
          rw [beq_eq_false_iff_ne, hf]
          exact fun hc => hfid hc.symm
        simp only [hkf, Bool.false_eq_true, if_false, List.append_nil]
        exact ih
      · rw [if_neg hf]
        by_cases hkey : r.file_id = fid
        · rw [hkey, lookupAgg_updateAssoc_self, ih]
          have hone : (if (fid == fid) = true then [r] else ([] : List DocRow)) =
              [r] := by simp
          rw [hone]
          by_cases hrel : rowsFor fid l = []
          · rw [if_pos hrel, hrel]
            simp
          · rw [if_neg hrel]
            rw [if_neg (by
              intro hc
              exact hrel (List.append_eq_nil.mp hc).1)]
            rw [List.foldl_append, List.foldl_cons, List.foldl_nil]
            simp
        · have hkf : (r.file_id == fid) = false := by
            cases h : (r.file_id == fid)
            · rfl
            · exact absurd (beq_iff_eq.mp h) hkey
          rw [lookupAgg_updateAssoc_other _ _ _ _ hkey]
          simp only [hkf, Bool.false_eq_true, if_false, List.append_nil]
          exact ih

/-! ## The C10 invariants are preserved by the fold -/

theorem freshAgg_inv (fid : String) : aggInv (freshAgg fid) := by
  refine ⟨rfl, by simp [freshAgg], trivial⟩

theorem dtLt_false_iff (a b : PyDateTime) :
    dtLt a b = false ↔ epochMicros b ≤ epochMicros a := by
  constructor
  · intro h
    by_contra hc
    have : dtLt a b = true := by rw [dtLt_iff]; omega
    rw [h] at this; cases this
  · intro h
    cases hd : dtLt a b
    · rfl
    · rw [dtLt_iff] at hd; omega

theorem aggStep_inv (d : FileAgg) (r : DocRow) (hinv : aggInv d)
    (hact : r.action = "CREATE" ∨ r.action = "EDIT" ∨ r.action = "COMMENT") :
    aggInv (aggStep d r) := by
  obtain ⟨htot, hdays, hfl⟩ := hinv
  obtain ⟨s1, s2, s3, s4, s5, s6, s7, s8⟩ := aggStep_spec d r
  refine ⟨?_, ?_, ?_⟩
  · rw [s2, s3, s4, s5, htot]
    rcases hact with h | h | h
    · rw [h, if_pos rfl, if_neg (by decide), if_neg (by decide)]; omega
    · rw [h, if_neg (by decide), if_pos rfl, if_neg (by decide)]; omega
    · rw [h, if_neg (by decide), if_neg (by decide), if_pos rfl]; omega
  · rw [s8, s2]
    cases hp : parse_ts r.timestamp with
    | none => dsimp only; omega
    | some t =>
        dsimp only
        have := Finset.card_insert_le (dateIsoDT t) d.active_days
        omega
  · rw [show (aggStep d r).first_activity_dt = _ from s6,
      show (aggStep d r).last_activity_dt = _ from s7]
    cases hp : parse_ts r.timestamp with
    | none => exact hfl
    | some t =>
        dsimp only
        cases hcf : d.first_activity_dt with
        | none =>
            cases hcl : d.last_activity_dt with
            | none =>
                show firstLeLast (minStep none t) (maxStep none t)
                exact le_refl (epochMicros t)
            | some c =>
                rw [hcf, hcl] at hfl
                exact hfl.elim
        | some f =>
            cases hcl : d.last_activity_dt with
            | none =>
                rw [hcf, hcl] at hfl
                exact hfl.elim
            | some lst =>
                rw [hcf, hcl] at hfl
                have hfl' : epochMicros f ≤ epochMicros lst := hfl
                show firstLeLast (minStep (some f) t) (maxStep (some lst) t)
                unfold minStep maxStep
                dsimp only
                by_cases h1 : dtLt t f = true
                · rw [if_pos h1]
                  rw [dtLt_iff] at h1
                  by_cases h2 : dtLt lst t = true
                  · rw [if_pos h2]
                    exact le_refl (epochMicros t)
                  · rw [if_neg h2]
                    have h2' : dtLt lst t = false := by
                      cases hx : dtLt lst t
                      · rfl
                      · exact absurd hx h2
                    rw [dtLt_false_iff] at h2'
                    show epochMicros t ≤ epochMicros lst
                    omega
                · rw [if_neg h1]
                  have h1' : dtLt t f = false := by
                    cases hx : dtLt t f
                    · rfl
                    · exact absurd hx h1
                  rw [dtLt_false_iff] at h1'
                  by_cases h2 : dtLt lst t = true
                  · rw [if_pos h2]
                    rw [dtLt_iff] at h2
                    show epochMicros f ≤ epochMicros t
                    omega
                  · rw [if_neg h2]
                    exact hfl'

theorem foldl_aggStep_inv (rel : List DocRow)
    (hact : ∀ r ∈ rel,
      r.action = "CREATE" ∨ r.action = "EDIT" ∨ r.action = "COMMENT") :
    ∀ d, aggInv d → aggInv (rel.foldl aggStep d) := by
  induction rel with
  | nil => intro d h; exact h
  | cons r rs ih =>
      intro d h
      rw [List.foldl_cons]
      exact ih (fun x hx => hact x (List.mem_cons_of_mem _ hx)) _
        (aggStep_inv d r h (hact r (List.mem_cons_self _ _)))

/-! ## Commutativity of the running min/max over UTC datetimes -/

theorem minStep_comm {x y : PyDateTime}
    (hvx : x.validB = true) (hzx : x.tzoff = some 0)
    (hvy : y.validB = true) (hzy : y.tzoff = some 0) :
    ∀ z, minStep (minStep z x) y = minStep (minStep z y) x := by
  intro z
  rcases Int.lt_trichotomy (epochMicros x) (epochMicros y) with hxy | hxy | hxy
  · have hyxF : dtLt y x = false := by rw [dtLt_false_iff]; omega
    have hxyT : dtLt x y = true := by rw [dtLt_iff]; omega
    cases z with
    | none => unfold minStep; dsimp only; rw [hyxF, hxyT]; simp
    | some c =>
        unfold minStep
        dsimp only
        by_cases hxc : dtLt x c = true
        · rw [hxc]
          simp only [if_true]
          by_cases hyc : dtLt y c = true
          · rw [hyc]
            simp only [if_true]
            rw [hyxF, hxyT]
            simp
          · have hycF : dtLt y c = false := by
              cases hh : dtLt y c
              · rfl
              · exact absurd hh hyc
            rw [hycF]
            simp only [Bool.false_eq_true, if_false]
            rw [hyxF, hxc]
            simp
        · have hxcF : dtLt x c = false := by
            cases hh : dtLt x c
            · rfl
            · exact absurd hh hxc
          have hycF : dtLt y c = false := by
            rw [dtLt_false_iff]
            rw [dtLt_false_iff] at hxcF
            omega
          rw [hxcF, hycF]
          simp only [Bool.false_eq_true, if_false]
          rw [hycF, hxcF]
          simp
  · have := epochMicros_injOn hvx hvy hzx hzy hxy
    subst this
    rfl
  · have hyxT : dtLt y x = true := by rw [dtLt_iff]; omega
    have hxyF : dtLt x y = false := by rw [dtLt_false_iff]; omega
    cases z with
    | none => unfold minStep; dsimp only; rw [hyxT, hxyF]; simp
    | some c =>
        unfold minStep
        dsimp only
        by_cases hyc : dtLt y c = true
        · rw [hyc]
          simp only [if_true]
          by_cases hxc : dtLt x c = true
          · rw [hxc]
            simp only [if_true]
            rw [hyxT, hxyF]
            simp
          · have hxcF : dtLt x c = false := by
              cases hh : dtLt x c
              · rfl
              · exact absurd hh hxc
            rw [hxcF]
            simp only [Bool.false_eq_true, if_false]
            rw [hyc, hxyF]
            simp
        · have hycF : dtLt y c = false := by
            cases hh : dtLt y c
            · rfl
            · exact absurd hh hyc
          have hxcF : dtLt x c = false := by
            rw [dtLt_false_iff]
            rw [dtLt_false_iff] at hycF
            omega
          rw [hxcF, hycF]
          simp only [Bool.false_eq_true, if_false]
          rw [hycF, hxcF]
          simp

theorem maxStep_comm {x y : PyDateTime}
    (hvx : x.validB = true) (hzx : x.tzoff = some 0)
    (hvy : y.validB = true) (hzy : y.tzoff = some 0) :
    ∀ z, maxStep (maxStep z x) y = maxStep (maxStep z y) x := by
  intro z
  rcases Int.lt_trichotomy (epochMicros x) (epochMicros y) with hxy | hxy | hxy
  · have hxyT : dtLt x y = true := by rw [dtLt_iff]; omega
    have hyxF : dtLt y x = false := by rw [dtLt_false_iff]; omega
    cases z with
    | none => unfold maxStep; dsimp only; rw [hxyT, hyxF]; simp
    | some c =>
        unfold maxStep
        dsimp only
        by_cases hcx : dtLt c x = true
        · rw [hcx]
          simp only [if_true]
          have hcy : dtLt c y = true := by
            rw [dtLt_iff]
            rw [dtLt_iff] at hcx
            omega
          rw [hcy]
          simp only [if_true]
          rw [hxyT, hyxF]
          simp
        · have hcxF : dtLt c x = false := by
            cases hh : dtLt c x
            · rfl
            · exact absurd hh hcx
          rw [hcxF]
          simp only [Bool.false_eq_true, if_false]
          by_cases hcy : dtLt c y = true
          · simp [hcy, hyxF]
          · have hcyF : dtLt c y = false := by
              cases hh : dtLt c y
              · rfl
              · exact absurd hh hcy
            simp [hcyF, hcxF]
  · have := epochMicros_injOn hvx hvy hzx hzy hxy
    subst this
    rfl
  · have hyxT : dtLt y x = true := by rw [dtLt_iff]; omega
    have hxyF : dtLt x y = false := by rw [dtLt_false_iff]; omega
    cases z with
    | none => unfold maxStep; dsimp only; rw [hyxT, hxyF]; simp
    | some c =>
        unfold maxStep
        dsimp only
        by_cases hcy : dtLt c y = true
        · rw [hcy]
          simp only [if_true]
          have hcx : dtLt c x = true := by
            rw [dtLt_iff]
            rw [dtLt_iff] at hcy
            omega
          rw [hcx]
          simp only [if_true]
          rw [hyxT, hxyF]
          simp
        · have hcyF : dtLt c y = false := by
            cases hh : dtLt c y
            · rfl
            · exact absurd hh hcy
          rw [hcyF]
          simp only [Bool.false_eq_true, if_false]
          by_cases hcx : dtLt c x = true
          · simp [hcx, hxyF]
          · have hcxF : dtLt c x = false := by
              cases hh : dtLt c x
              · rfl
              · exact absurd hh hcx
            simp [hcxF, hcyF]

end GDocs

/-! ## Lemmas about the request and pagination layer -/

theorem listCommits_ok_pages {α : Type} (pre : List (List α)) :
    GH.listCommitsForRepo (pre.map Except.ok) = pre.flatten := by
  induction pre with
  | nil => rfl
  | cons p ps ih =>
      simp only [List.map_cons, GH.listCommitsForRepo, ih, List.flatten_cons]

theorem listCommits_error_kept {α : Type} (pre : List (List α)) (e : Nat)
    (rest : List (GH.PageResult (List α))) :
    GH.listCommitsForRepo (pre.map Except.ok ++ Except.error e :: rest) =
      pre.flatten := by
  induction pre with
  | nil => rfl
  | cons p ps ih =>
      simp only [List.map_cons, List.cons_append, GH.listCommitsForRepo,
        List.append_eq, ih, List.flatten_cons]

theorem searchIssues_ok_pages {α : Type} (pre : List (List α)) :
    GH.searchIssues (pre.map Except.ok) = Except.ok pre.flatten := by
  induction pre with
  | nil => rfl
  | cons p ps ih =>
      simp only [List.map_cons, GH.searchIssues, ih, Except.map,
        List.flatten_cons]

theorem searchIssues_error_fatal {α : Type} (pre : List (List α)) (e : Nat)
    (rest : List (GH.PageResult (List α))) :
    GH.searchIssues (pre.map Except.ok ++ Except.error e :: rest) =
      Except.error e := by
  induction pre with
  | nil => rfl
  | cons p ps ih =>
      simp only [List.map_cons, List.cons_append, GH.searchIssues,
        List.append_eq, ih, Except.map]

theorem commitPhase_cons {α : Type} (repo : String)
    (pages : List (GH.PageResult (List α)))
    (others : List (String × List (GH.PageResult (List α)))) :
    GH.commitPhase ((repo, pages) :: others) =
      (GH.listCommitsForRepo pages).map (fun c => (repo, c)) ++
        GH.commitPhase others := by
  unfold GH.commitPhase
  rw [List.map_cons, List.flatten_cons]

/-! ## The rendered window bounds parse back to the same calendar date -/

theorem expectChar_cons_self (c : Char) (cs : List Char) :
    expectChar c (c :: cs) = some cs := by
  unfold expectChar
  dsimp only
  rw [if_pos rfl]

theorem parseDateStr_pyDateIso (y m d : Nat) (h : validDate y m d) :
    parseDateStr (pyDateIso (y, m, d)) = some (y, m, d) := by
  have hdle : d ≤ 31 := le_trans h.2.2.2.2.2 (daysInMonth_le31 y m)
  have hym : y % 10 ^ 4 = y := Nat.mod_eq_of_lt (by
    have := h.2.1; norm_num; omega)
  have hmm : m % 10 ^ 2 = m := Nat.mod_eq_of_lt (by
    have := h.2.2.2.1; norm_num; omega)
  have hdm : d % 10 ^ 2 = d := Nat.mod_eq_of_lt (by norm_num; omega)
  have hdata : (pyDateIso (y, m, d)).data =
      padNum 4 y ++ ('-' :: (padNum 2 m ++ ('-' :: (padNum 2 d ++ [])))) := by
    unfold pyDateIso
    simp
  unfold parseDateStr
  rw [hdata]
  rw [readN_padNum, Nat.zero_mul, Nat.zero_add, hym]
  dsimp only
  rw [expectChar_cons_self]
  dsimp only
  rw [readN_padNum, Nat.zero_mul, Nat.zero_add, hmm]
  dsimp only
  rw [expectChar_cons_self]
  dsimp only
  rw [readN_padNum, Nat.zero_mul, Nat.zero_add, hdm]
  dsimp only
  rw [if_pos h]

namespace GDocs

/-! ## An isoformat string is never empty -/

theorem strLt_empty_isoformat (t : PyDateTime) (hz : t.tzoff = some 0)
    (hm : t.micro = 0) :
    strLt "" (isoformatDT t) = true := by
  unfold strLt
  rw [show ("" : String).data = [] from rfl, isoformatDT_data t hz hm]
  rfl

end GDocs

/-! ## The claims -/

/-- C1 (amended): the backoff trigger is exactly `status == 403` with
remaining `"0"`; when it fires, `req` sleeps `max(reset - now + 2, 10)`
seconds and retries exactly once, a rate-limited retry propagating the
error; when it does not fire (HTTP 429 included), there is one request,
no sleep, and any 4xx/5xx raises immediately. -/
theorem c1_rate_limit_retry (now : Int) (first second : GH.HttpResponse) :
    (GH.isRateLimited first =
        (first.status == 403 && first.rateLimitRemaining == some "0")) ∧
    (GH.isRateLimited first = true →
        (GH.req now first second).attempts = 2 ∧
        (GH.req now first second).sleeps =
          [max (((first.rateLimitReset.getD 0 : Nat) : Int) - now + 2) 10] ∧
        (GH.req now first second).result = GH.raiseForStatus second) ∧
    (GH.isRateLimited first = true → GH.isRateLimited second = true →
        (GH.req now first second).result = Except.error second.status) ∧
    (GH.isRateLimited first = false →
        (GH.req now first second).attempts = 1 ∧
        (GH.req now first second).sleeps = [] ∧
        (GH.req now first second).result = GH.raiseForStatus first) := by
  refine ⟨rfl, ?_, ?_, ?_⟩
  · intro h
    unfold GH.req
    rw [if_pos h]
    exact ⟨rfl, rfl, rfl⟩
  · intro h1 h2
    unfold GH.req
    rw [if_pos h1]
    have h403 : second.status = 403 := by
      unfold GH.isRateLimited at h2
      rw [Bool.and_eq_true] at h2
      exact beq_iff_eq.mp h2.1
    show GH.raiseForStatus second = Except.error second.status
    unfold GH.raiseForStatus
    rw [if_pos (by rw [h403]; omega)]
  · intro h
    unfold GH.req
    rw [if_neg (by intro hc; rw [h] at hc; exact Bool.false_ne_true hc)]
    exact ⟨rfl, rfl, rfl⟩

/-- C1 counterexample: a plain HTTP 429, even with the rate-limit
headers present and exhausted, is not treated as rate-limited: one
request, no sleep, no retry, immediate error. -/
theorem c1_counterexample :
    GH.isRateLimited ⟨429, some "0", some 1000⟩ = false ∧
    (GH.req 0 ⟨429, some "0", some 1000⟩ ⟨200, none, none⟩).attempts = 1 ∧
    (GH.req 0 ⟨429, some "0", some 1000⟩ ⟨200, none, none⟩).sleeps = [] ∧
    (GH.req 0 ⟨429, some "0", some 1000⟩ ⟨200, none, none⟩).result =
      Except.error 429 :=
  ⟨rfl, rfl, rfl, rfl⟩

/-- C1 witness: a 403-with-remaining-0 response with reset 100 at time 5
sleeps 97 seconds, retries once, and a second rate-limited response is
an error. -/
theorem c1_witness :
    (GH.req 5 ⟨403, some "0", some 100⟩ ⟨403, some "0", some 100⟩).attempts = 2 ∧
    (GH.req 5 ⟨403, some "0", some 100⟩ ⟨403, some "0", some 100⟩).sleeps = [97] ∧
    (GH.req 5 ⟨403, some "0", some 100⟩ ⟨403, some "0", some 100⟩).result =
      Except.error 403 := by
  obtain ⟨-, h2, h3, -⟩ :=
    c1_rate_limit_retry 5 ⟨403, some "0", some 100⟩ ⟨403, some "0", some 100⟩
  refine ⟨(h2 rfl).1, ?_, h3 rfl rfl⟩
  rw [(h2 rfl).2.1]
  decide

/-- C2 (amended): `iso` never fails, and yields `""` for absent or
empty input; but an unparseable nonempty input is returned UNCHANGED
(the `except` branch returns `dtstr`), not replaced by `""`; parseable
input is reformatted through `strftime`. -/
theorem c2_iso_best_effort (s : String) :
    iso none = "" ∧
    (s = "" → iso (some s) = "") ∧
    (∀ t, fromisoformat (String.mk (pyReplaceZ s.data)) = some t →
      s ≠ "" → iso (some s) = strftimeZ t) ∧
    (fromisoformat (String.mk (pyReplaceZ s.data)) = none →
      s ≠ "" → iso (some s) = s) := by
  refine ⟨rfl, ?_, ?_, ?_⟩
  · intro h
    unfold iso
    dsimp only
    rw [if_pos h]
  · intro t ht hs
    unfold iso
    dsimp only
    rw [if_neg hs]
    simp only [ht]
  · intro hn hs
    unfold iso
    dsimp only
    rw [if_neg hs]
    simp only [hn]

/-- C2 counterexample: the unparseable nonempty string `"garbage"` is
returned unchanged, which is not the empty marker. -/
theorem c2_counterexample :
    iso (some "garbage") = "garbage" ∧
    ("garbage" : String) ≠ "" ∧
    fromisoformat (String.mk (pyReplaceZ ("garbage" : String).data)) = none := by
  exact ⟨by decide, by decide, by decide⟩

/-- C2 witness: the empty-marker cases and the unchanged-return case at
concrete inputs. -/
theorem c2_witness :
    iso none = "" ∧ iso (some "") = "" ∧
      iso (some "not-a-date") = "not-a-date" := by
  have h1 := c2_iso_best_effort "not-a-date"
  have h2 := c2_iso_best_effort ""
  exact ⟨h1.1, h2.2.1 rfl, h1.2.2.2 (by decide) (by decide)⟩

/-- C3 (amended): a raw activity is accepted iff an actor is the
current user, the priority-derived action label is CREATE/EDIT/COMMENT,
the target list is nonempty, and the target the loop picks — the FIRST
target with a nonempty item name (else the last target) — has a
nonempty name and the Google-Docs MIME type.  It is not enough that
SOME target is a document-type item. -/
theorem c3_acceptance (a : GDocs.Activity) :
    (GDocs.normalizeActivity a).isSome = true ↔
      (a.actors.any GDocs.is_me_actor = true ∧
        (GDocs.action_label a.primaryKeys = "CREATE" ∨
          GDocs.action_label a.primaryKeys = "EDIT" ∨
          GDocs.action_label a.primaryKeys = "COMMENT") ∧
        a.targets ≠ [] ∧
        (GDocs.pickTarget a.targets).2.1 ≠ "" ∧
        (GDocs.pickTarget a.targets).2.2 = GDocs.mime_docs) := by
  unfold GDocs.normalizeActivity
  dsimp only
  by_cases h1 : a.actors.any GDocs.is_me_actor = true
  · rw [if_neg (not_not_intro h1)]
    by_cases h2 : (GDocs.action_label a.primaryKeys = "CREATE" ∨
        GDocs.action_label a.primaryKeys = "EDIT" ∨
        GDocs.action_label a.primaryKeys = "COMMENT")
    · rw [if_neg (not_not_intro h2)]
      by_cases h3 : a.targets = []
      · rw [if_pos h3]
        simp [h3]
      · rw [if_neg h3]
        by_cases h4 : ((GDocs.pickTarget a.targets).2.1 = "" ∨
            (GDocs.pickTarget a.targets).2.2 ≠ GDocs.mime_docs)
        · rw [if_pos h4]
          simp only [Option.isSome_none, Bool.false_eq_true, false_iff]
          rintro ⟨-, -, -, hne, heq⟩
          rcases h4 with h4 | h4
          · exact hne h4
          · exact h4 heq
        · rw [if_neg h4]
          push_neg at h4
          constructor
          · intro _
            exact ⟨h1, h2, h3, h4.1, h4.2⟩
          · intro _
            rfl
    · rw [if_pos h2]
      simp [h2]
  · rw [if_pos h1]
    simp [h1]

/-- C3 counterexample: an edit by the current user whose FIRST named
target is a spreadsheet is rejected although its second target is a
document-type item. -/
theorem c3_counterexample :
    GDocs.normalizeActivity
      ⟨[⟨some ⟨some ⟨some true⟩⟩⟩], ["edit"],
        [⟨some ⟨some "Sheet", some "items/S",
            some "application/vnd.google-apps.spreadsheet"⟩, none⟩,
         ⟨some ⟨some "Doc", some "items/D",
            some "application/vnd.google-apps.document"⟩, none⟩],
        some "2024-03-01T10:00:00Z", none, none⟩ = none ∧
    ([⟨some ⟨some "Sheet", some "items/S",
        some "application/vnd.google-apps.spreadsheet"⟩, none⟩,
      ⟨some ⟨some "Doc", some "items/D",
        some "application/vnd.google-apps.document"⟩, none⟩] :
        List GDocs.Target).any GDocs.targetIsDoc = true ∧
    ([⟨some ⟨some ⟨some true⟩⟩⟩] : List GDocs.Actor).any GDocs.is_me_actor =
      true ∧
    GDocs.action_label ["edit"] = "EDIT" := by
  exact ⟨by decide, by decide, by decide, by decide⟩

/-- C3 witness: an edit by the current user on a single document target
is accepted. -/
theorem c3_witness :
    (GDocs.normalizeActivity
      ⟨[⟨some ⟨some ⟨some true⟩⟩⟩], ["edit"],
        [⟨some ⟨some "Doc", some "items/D",
            some "application/vnd.google-apps.document"⟩, none⟩],
        some "2024-03-01T10:00:00Z", none, none⟩).isSome = true :=
  (c3_acceptance _).mpr
    ⟨by decide, by decide, by decide, by decide, by decide⟩

/-- C4 (amended): the calendar exporter performs no in-code date
filtering at all — every event yields a row — so a row's date lies in
the window exactly when the event's own start string does: containment
holds only if the upstream query filtered, not by any code in the
exporter.  (The other two exporters likewise only put the window in the
query.) -/
theorem c4_window_filter (since until_ : String) (events : List Cal.Event)
    (_hsu : strLe since until_ = true) :
    Cal.calRows events = events.map Cal.calRow ∧
    (∀ e ∈ events,
      Cal.parse_event_time e.startT ≠ "" →
      Cal.inWindowB since until_
          (strTake (Cal.parse_event_time e.startT) 10) = true →
      Cal.inWindowB since until_ (Cal.calRow e).date = true) := by
  refine ⟨rfl, ?_⟩
  intro e _he hne hw
  have hd : (Cal.calRow e).date =
      strTake (Cal.parse_event_time e.startT) 10 := by
    unfold Cal.calRow
    dsimp only
    rw [if_neg hne]
  rw [hd]
  exact hw

/-- C4 counterexample: with window 2024-01-01..2024-01-31, an event
starting 2023-05-05 still yields a row, whose date is outside the
window. -/
theorem c4_counterexample :
    strLe "2024-01-01" "2024-01-31" = true ∧
    Cal.calRows [⟨some ⟨some (some "2023-05-05T10:00:00Z"), none⟩, none⟩] =
      [⟨"2023-05-05", "2023-05-05T10:00:00Z", ""⟩] ∧
    Cal.inWindowB "2024-01-01" "2024-01-31" "2023-05-05" = false := by
  exact ⟨by decide, by decide, by decide⟩

/-- C4 witness: an event starting inside the window yields a row whose
date is inside the window. -/
theorem c4_witness :
    Cal.inWindowB "2024-01-01" "2024-01-31"
      (Cal.calRow ⟨some ⟨some (some "2024-01-15T10:00:00Z"), none⟩,
        none⟩).date = true := by
  have h := c4_window_filter "2024-01-01" "2024-01-31"
    [⟨some ⟨some (some "2024-01-15T10:00:00Z"), none⟩, none⟩] (by decide)
  exact h.2 _ (List.mem_singleton.mpr rfl) (by decide) (by decide)

/-- C5: deduplication keeps, in order, exactly the first row of each
`(timestamp, action, file_id)` key: the output is a sublist of the
input, every kept row is the first of its key, kept keys are pairwise
distinct, the pass is idempotent, and each key occurring in the input
is kept exactly once. -/
theorem c5_dedupe_stable (rows : List GDocs.DocRow) :
    (GDocs.dedupe rows).Sublist rows ∧
    (∀ r ∈ GDocs.dedupe rows,
      rows.find? (fun x => GDocs.rowKey x == GDocs.rowKey r) = some r) ∧
    (GDocs.dedupe rows).Pairwise
      (fun a b => GDocs.rowKey a ≠ GDocs.rowKey b) ∧
    GDocs.dedupe (GDocs.dedupe rows) = GDocs.dedupe rows ∧
    (∀ k, (GDocs.dedupe rows).countP (fun r => GDocs.rowKey r == k) =
      if rows.any (fun r => GDocs.rowKey r == k) = true then 1 else 0) := by
  refine ⟨GDocs.dedupeAux_sublist rows [],
    fun r hr => GDocs.dedupeAux_find rows [] r hr,
    GDocs.dedupeAux_pairwise rows [],
    GDocs.dedupeAux_idem rows [],
    fun k => ?_⟩
  unfold GDocs.dedupe
  rw [GDocs.dedupeAux_countP]
  have hiff : (k ∉ ([] : List (String × String × String)) ∧
      rows.any (fun r => GDocs.rowKey r == k) = true) ↔
      rows.any (fun r => GDocs.rowKey r == k) = true := by
    simp
  rw [if_congr hiff rfl rfl]

/-- C5 witness: of three rows with the same key and different titles,
exactly the first survives. -/
theorem c5_witness :
    GDocs.dedupe
      [⟨"2024-03-01", "2024-03-01T10:00:00Z", "EDIT", "a", "F", "", ""⟩,
       ⟨"2024-03-01", "2024-03-01T10:00:00Z", "EDIT", "b", "F", "", ""⟩,
       ⟨"2024-03-01", "2024-03-01T10:00:00Z", "EDIT", "c", "F", "", ""⟩] =
      [⟨"2024-03-01", "2024-03-01T10:00:00Z", "EDIT", "a", "F", "", ""⟩] ∧
    (GDocs.dedupe
      [⟨"2024-03-01", "2024-03-01T10:00:00Z", "EDIT", "a", "F", "", ""⟩,
       ⟨"2024-03-01", "2024-03-01T10:00:00Z", "EDIT", "b", "F", "", ""⟩,
       ⟨"2024-03-01", "2024-03-01T10:00:00Z", "EDIT", "c", "F", "", ""⟩]).countP
        (fun r => GDocs.rowKey r == ("2024-03-01T10:00:00Z", "EDIT", "F")) =
      1 := by
  refine ⟨by decide, ?_⟩
  rw [(c5_dedupe_stable _).2.2.2.2 ("2024-03-01T10:00:00Z", "EDIT", "F")]
  decide

/-- C6: folding a row multiset into the per-file rollups is
order-independent on every field except the last-write-wins title and
url: for permuted row lists whose parseable timestamps are valid UTC
instants (as the pipeline's `Z`-normalized timestamps are), every file
id gets rollups agreeing on id, per-category counts, total, the
active-days set (hence its size), and the first/last instants. -/
theorem c6_aggregate_perm (l1 l2 : List GDocs.DocRow)
    (hperm : l1.Perm l2)
    (hz : ∀ r ∈ l1, (parse_ts r.timestamp).all
      (fun t => t.validB && (t.tzoff == some 0)) = true) :
    ∀ fid : String,
      GDocs.rollupAgree (GDocs.lookupAgg fid (GDocs.aggregate l1))
        (GDocs.lookupAgg fid (GDocs.aggregate l2)) := by
  intro fid
  by_cases hfid : fid = ""
  · subst hfid
    have h1 : GDocs.lookupAgg "" (GDocs.aggregate l1) = none :=
      GDocs.lookupAgg_foldStep_empty l1 [] rfl
    have h2 : GDocs.lookupAgg "" (GDocs.aggregate l2) = none :=
      GDocs.lookupAgg_foldStep_empty l2 [] rfl
    rw [h1, h2]
    trivial
  · have hmem : ∀ t ∈ GDocs.tsOf (GDocs.rowsFor fid l1),
        t.validB = true ∧ t.tzoff = some 0 := by
      intro t ht
      unfold GDocs.tsOf GDocs.rowsFor at ht
      obtain ⟨r, hr, hpt⟩ := List.mem_filterMap.mp ht
      have hrl1 : r ∈ l1 := (List.mem_filter.mp hr).1
      have hall := hz r hrl1
      rw [hpt] at hall
      simp only [Option.all] at hall
      rw [Bool.and_eq_true] at hall
      exact ⟨hall.1, beq_iff_eq.mp hall.2⟩
    have hrel : (GDocs.rowsFor fid l1).Perm (GDocs.rowsFor fid l2) :=
      List.Perm.filter _ hperm
    have hts : (GDocs.tsOf (GDocs.rowsFor fid l1)).Perm
        (GDocs.tsOf (GDocs.rowsFor fid l2)) :=
      List.Perm.filterMap _ hrel
    have hfoldMin : (GDocs.tsOf (GDocs.rowsFor fid l1)).foldl GDocs.minStep
        none = (GDocs.tsOf (GDocs.rowsFor fid l2)).foldl GDocs.minStep none := by
      refine List.Perm.foldl_eq' hts ?_ none
      intro x hx y hy z
      obtain ⟨hvx, hzx⟩ := hmem x hx
      obtain ⟨hvy, hzy⟩ := hmem y hy
      exact GDocs.minStep_comm hvx hzx hvy hzy z
    have hfoldMax : (GDocs.tsOf (GDocs.rowsFor fid l1)).foldl GDocs.maxStep
        none = (GDocs.tsOf (GDocs.rowsFor fid l2)).foldl GDocs.maxStep none := by
      refine List.Perm.foldl_eq' hts ?_ none
      intro x hx y hy z
      obtain ⟨hvx, hzx⟩ := hmem x hx
      obtain ⟨hvy, hzy⟩ := hmem y hy
      exact GDocs.maxStep_comm hvx hzx hvy hzy z
    have hdays : (GDocs.daysOf (GDocs.rowsFor fid l1)).Perm
        (GDocs.daysOf (GDocs.rowsFor fid l2)) :=
      List.Perm.filterMap _ hrel
    rw [GDocs.lookupAgg_aggregate l1 fid hfid,
      GDocs.lookupAgg_aggregate l2 fid hfid]
    by_cases hnil : GDocs.rowsFor fid l1 = []
    · have hnil2 : GDocs.rowsFor fid l2 = [] :=
        List.Perm.eq_nil ((hnil ▸ hrel).symm)
      rw [if_pos hnil, if_pos hnil2]
      trivial
    · have hnil2 : GDocs.rowsFor fid l2 ≠ [] := by
        intro hc
        exact hnil (List.Perm.eq_nil (hc ▸ hrel))
      rw [if_neg hnil, if_neg hnil2]
      refine ⟨?_, ?_, ?_, ?_, ?_, ?_, ?_, ?_⟩
      · rw [GDocs.foldl_aggStep_file_id, GDocs.foldl_aggStep_file_id]
      · rw [GDocs.foldl_aggStep_creates, GDocs.foldl_aggStep_creates,
          List.Perm.countP_eq _ hrel]
      · rw [GDocs.foldl_aggStep_edits, GDocs.foldl_aggStep_edits,
          List.Perm.countP_eq _ hrel]
      · rw [GDocs.foldl_aggStep_comments, GDocs.foldl_aggStep_comments,
          List.Perm.countP_eq _ hrel]
      · rw [GDocs.foldl_aggStep_total, GDocs.foldl_aggStep_total,
          List.Perm.length_eq hrel]
      · rw [GDocs.foldl_aggStep_days, GDocs.foldl_aggStep_days,
          GDocs.foldl_insert_toFinset, GDocs.foldl_insert_toFinset,
          List.toFinset_eq_of_perm _ _ hdays]
      · rw [GDocs.foldl_aggStep_first, GDocs.foldl_aggStep_first]
        exact hfoldMin
      · rw [GDocs.foldl_aggStep_last, GDocs.foldl_aggStep_last]
        exact hfoldMax

/-- C6 witness: two rows for one file folded in either order give
agreeing rollups. -/
theorem c6_witness :
    GDocs.rollupAgree
      (GDocs.lookupAgg "F" (GDocs.aggregate
        [⟨"2024-03-01", "2024-03-01T10:00:00Z", "EDIT", "a", "F", "", ""⟩,
         ⟨"2024-03-02", "2024-03-02T11:00:00Z", "CREATE", "b", "F", "", ""⟩]))
      (GDocs.lookupAgg "F" (GDocs.aggregate
        [⟨"2024-03-02", "2024-03-02T11:00:00Z", "CREATE", "b", "F", "", ""⟩,
         ⟨"2024-03-01", "2024-03-01T10:00:00Z", "EDIT", "a", "F", "", ""⟩])) :=
  c6_aggregate_perm
    [⟨"2024-03-01", "2024-03-01T10:00:00Z", "EDIT", "a", "F", "", ""⟩,
     ⟨"2024-03-02", "2024-03-02T11:00:00Z", "CREATE", "b", "F", "", ""⟩]
    [⟨"2024-03-02", "2024-03-02T11:00:00Z", "CREATE", "b", "F", "", ""⟩,
     ⟨"2024-03-01", "2024-03-01T10:00:00Z", "EDIT", "a", "F", "", ""⟩]
    (by decide) (by decide) "F"

/-- C7: sorting the summary list by the `_last_sort` key descending
orders it by last-activity instant descending, with every rollup
lacking a parseable timestamp (empty sort key) after all timestamped
ones — for rollups whose recorded instants are valid UTC values with
zero microseconds, as the pipeline produces. -/
theorem c7_sorted_desc (files : List (String × GDocs.FileAgg))
    (hv : ∀ kv ∈ files, (kv.2.last_activity_dt).all
      (fun t => t.validB && (t.tzoff == some 0) && (t.micro == 0)) = true) :
    (GDocs.sortSummaries (files.map GDocs.mkSummary)).Perm
        (files.map GDocs.mkSummary) ∧
      (GDocs.sortSummaries (files.map GDocs.mkSummary)).Pairwise
        GDocs.summariesOrdered := by
  constructor
  · exact GDocs.sortSummaries_perm _
  · have hp := GDocs.sortSummaries_pairwise (files.map GDocs.mkSummary)
    refine List.Pairwise.imp_of_mem ?_ hp
    intro a b ha hb hab
    have ha' : a ∈ files.map GDocs.mkSummary :=
      (GDocs.sortSummaries_perm _).subset ha
    have hb' : b ∈ files.map GDocs.mkSummary :=
      (GDocs.sortSummaries_perm _).subset hb
    obtain ⟨kva, hkva, rfl⟩ := List.mem_map.mp ha'
    obtain ⟨kvb, hkvb, rfl⟩ := List.mem_map.mp hb'
    have hva := hv kva hkva
    have hvb := hv kvb hkvb
    show GDocs.lastOrdered (GDocs.mkSummary kva).last_dt
      (GDocs.mkSummary kvb).last_dt
    cases hA : kva.2.last_activity_dt with
    | none =>
        cases hB : kvb.2.last_activity_dt with
        | none =>
            rw [show (GDocs.mkSummary kva).last_dt = none from hA,
              show (GDocs.mkSummary kvb).last_dt = none from hB]
            trivial
        | some tb =>
            rw [hB] at hvb
            simp only [Option.all, Bool.and_eq_true] at hvb
            obtain ⟨⟨-, hztb⟩, hmtb⟩ := hvb
            have hztb' : tb.tzoff = some 0 := beq_iff_eq.mp hztb
            have hmtb' : tb.micro = 0 := beq_iff_eq.mp hmtb
            have e2a : (GDocs.mkSummary kva).lastSort = "" := by
              unfold GDocs.mkSummary
              dsimp only
              rw [hA]
            have e2b : (GDocs.mkSummary kvb).lastSort = isoformatDT tb := by
              unfold GDocs.mkSummary
              dsimp only
              rw [hB]
            rw [e2a, e2b] at hab
            have htrue := GDocs.strLt_empty_isoformat tb hztb' hmtb'
            rw [hab] at htrue
            exact (Bool.false_ne_true htrue).elim
    | some ta =>
        rw [hA] at hva
        simp only [Option.all, Bool.and_eq_true] at hva
        obtain ⟨⟨hvta, hzta⟩, hmta⟩ := hva
        have hzta' : ta.tzoff = some 0 := beq_iff_eq.mp hzta
        have hmta' : ta.micro = 0 := beq_iff_eq.mp hmta
        cases hB : kvb.2.last_activity_dt with
        | none =>
            rw [show (GDocs.mkSummary kva).last_dt = some ta from hA,
              show (GDocs.mkSummary kvb).last_dt = none from hB]
            trivial
        | some tb =>
            rw [hB] at hvb
            simp only [Option.all, Bool.and_eq_true] at hvb
            obtain ⟨⟨hvtb, hztb⟩, hmtb⟩ := hvb
            have hztb' : tb.tzoff = some 0 := beq_iff_eq.mp hztb
            have hmtb' : tb.micro = 0 := beq_iff_eq.mp hmtb
            have e2a : (GDocs.mkSummary kva).lastSort = isoformatDT ta := by
              unfold GDocs.mkSummary
              dsimp only
              rw [hA]
            have e2b : (GDocs.mkSummary kvb).lastSort = isoformatDT tb := by
              unfold GDocs.mkSummary
              dsimp only
              rw [hB]
            rw [show (GDocs.mkSummary kva).last_dt = some ta from hA,
              show (GDocs.mkSummary kvb).last_dt = some tb from hB]
            show epochMicros tb ≤ epochMicros ta
            rw [e2a, e2b] at hab
            have hnot : ¬ (strLt (isoformatDT ta) (isoformatDT tb) = true) := by
              intro hc
              rw [hc] at hab
              exact Bool.noConfusion hab
            rw [isoformat_lt_iff hvta hvtb hzta' hztb' hmta' hmtb'] at hnot
            omega

/-- C7 witness: a timestamped rollup and a timestampless one sort into
descending order with the timestampless one last. -/
theorem c7_witness :
    (GDocs.sortSummaries
      ([("B", ⟨"B", "", "", none, none, 0, 0, 0, 0, ∅⟩),
        ("A", ⟨"A", "", "", none, some ⟨2024, 3, 1, 10, 0, 0, 0, some 0⟩,
          0, 0, 0, 0, ∅⟩)].map GDocs.mkSummary)).Perm
      ([("B", ⟨"B", "", "", none, none, 0, 0, 0, 0, ∅⟩),
        ("A", ⟨"A", "", "", none, some ⟨2024, 3, 1, 10, 0, 0, 0, some 0⟩,
          0, 0, 0, 0, ∅⟩)].map GDocs.mkSummary) ∧
    (GDocs.sortSummaries
      ([("B", ⟨"B", "", "", none, none, 0, 0, 0, 0, ∅⟩),
        ("A", ⟨"A", "", "", none, some ⟨2024, 3, 1, 10, 0, 0, 0, some 0⟩,
          0, 0, 0, 0, ∅⟩)].map GDocs.mkSummary)).Pairwise
      GDocs.summariesOrdered :=
  c7_sorted_desc
    [("B", ⟨"B", "", "", none, none, 0, 0, 0, 0, ∅⟩),
     ("A", ⟨"A", "", "", none, some ⟨2024, 3, 1, 10, 0, 0, 0, some 0⟩,
       0, 0, 0, 0, ∅⟩)] (by decide)

/-- C8 (amended): an HTTP error while listing one repository's commits
is swallowed, but the commits of the pages fetched BEFORE the failing
page have already been yielded and are kept; the loop then moves to the
next repository.  The same error in a search query propagates as the
overall outcome. -/
theorem c8_error_paths :
    (∀ (pre : List (List String)) (e : Nat)
        (rest : List (GH.PageResult (List String))),
        GH.listCommitsForRepo (pre.map Except.ok ++ Except.error e :: rest) =
          pre.flatten) ∧
    (∀ (repo : String) (pages : List (GH.PageResult (List String)))
        (others : List (String × List (GH.PageResult (List String)))),
        GH.commitPhase ((repo, pages) :: others) =
          (GH.listCommitsForRepo pages).map (fun c => (repo, c)) ++
            GH.commitPhase others) ∧
    (∀ (pre : List (List String)) (e : Nat)
        (rest : List (GH.PageResult (List String))),
        GH.searchIssues (pre.map Except.ok ++ Except.error e :: rest) =
          Except.error e) :=
  ⟨fun pre e rest => listCommits_error_kept pre e rest,
   fun repo pages others => commitPhase_cons repo pages others,
   fun pre e rest => searchIssues_error_fatal pre e rest⟩

/-- C8 counterexample: a repository whose second page errors still
contributes the first page's commit — the repository is not skipped
with "no commits", though the same transcript is fatal for a search. -/
theorem c8_counterexample :
    GH.listCommitsForRepo [Except.ok ["c1"], Except.error 404] = ["c1"] ∧
    GH.listCommitsForRepo
        ([Except.ok ["c1"], Except.error 404] :
          List (GH.PageResult (List String))) ≠ [] ∧
    GH.searchIssues ([Except.ok ["c1"], Except.error 404] :
        List (GH.PageResult (List String))) = Except.error 404 := by
  exact ⟨rfl, by decide, rfl⟩

/-- C8 witness: the commits before a failing page survive and later
pages are dropped. -/
theorem c8_witness :
    GH.listCommitsForRepo
        [Except.ok ["a", "b"], Except.error 500, Except.ok ["c"]] =
      ["a", "b"] :=
  c8_error_paths.1 [["a", "b"]] 500 [Except.ok ["c"]]

/-- C9: if either CLI date argument is falsy both are replaced by the
default window, otherwise both are kept; and the default window renders
`since = today - 182 days` and `until = today` as calendar dates:
parsing the rendered bounds back gives dates whose ordinals are
`today` and `today - 182`. -/
theorem c9_default_window :
    (∀ (sinceArg untilArg : Option String) (today : Nat),
        (strFalsy sinceArg || strFalsy untilArg) = true →
          resolveWindow sinceArg untilArg today = default_range today) ∧
    (∀ (sinceArg untilArg : Option String) (today : Nat),
        (strFalsy sinceArg || strFalsy untilArg) = false →
          resolveWindow sinceArg untilArg today =
            (sinceArg.getD "", untilArg.getD "")) ∧
    (∀ today : Nat, 183 ≤ today → today ≤ 3652059 →
        parseDateStr (resolveWindow none none today).2 =
            some (ord2ymd today) ∧
          parseDateStr (resolveWindow none none today).1 =
            some (ord2ymd (today - 182)) ∧
          ymd2ord (ord2ymd today).1 (ord2ymd today).2.1
              (ord2ymd today).2.2 = today ∧
          ymd2ord (ord2ymd (today - 182)).1 (ord2ymd (today - 182)).2.1
              (ord2ymd (today - 182)).2.2 + 182 = today) := by
  refine ⟨?_, ?_, ?_⟩
  · intro a b t h
    unfold resolveWindow
    rw [if_pos h]
  · intro a b t h
    unfold resolveWindow
    rw [if_neg (by intro hc; rw [h] at hc; exact Bool.false_ne_true hc)]
  · intro t h1 h2
    obtain ⟨hvT, hordT⟩ := ord2ymd_spec t (by omega) h2
    obtain ⟨hvS, hordS⟩ := ord2ymd_spec (t - 182) (by omega) (by omega)
    have hres : resolveWindow none none t = default_range t := by
      unfold resolveWindow
      have hc : (strFalsy (none : Option String) ||
          strFalsy (none : Option String)) = true := rfl
      rw [if_pos hc]
    rw [hres]
    unfold default_range
    refine ⟨?_, ?_, hordT, by omega⟩
    · exact parseDateStr_pyDateIso (ord2ymd t).1 (ord2ymd t).2.1
        (ord2ymd t).2.2 hvT
    · exact parseDateStr_pyDateIso (ord2ymd (t - 182)).1
        (ord2ymd (t - 182)).2.1 (ord2ymd (t - 182)).2.2 hvS

/-- C9 witness: the defaulting branch fires on a missing argument, the
non-defaulting branch keeps both, and the rendered bounds of ordinal
400 parse back. -/
theorem c9_witness :
    resolveWindow (some "2024-01-01") none 739901 = default_range 739901 ∧
    resolveWindow (some "2024-01-01") (some "2024-02-01") 739901 =
      ("2024-01-01", "2024-02-01") ∧
    parseDateStr (resolveWindow none none 400).2 = some (ord2ymd 400) := by
  have h := c9_default_window
  exact ⟨h.1 _ _ _ (by decide), h.2.1 _ _ _ (by decide),
    (h.2.2 400 (by decide) (by decide)).1⟩

/-- C10: the rollup invariants — total = creates + edits + comments,
at most total-many active days, first/last both unset or ordered — hold
for the fresh rollup, are preserved by each fold step on a
CREATE/EDIT/COMMENT row (the only rows the filter admits), and
therefore hold of every rollup the aggregation produces. -/
theorem c10_rollup_invariants :
    (∀ (d : GDocs.FileAgg) (r : GDocs.DocRow), GDocs.aggInv d →
        (r.action = "CREATE" ∨ r.action = "EDIT" ∨ r.action = "COMMENT") →
        GDocs.aggInv (GDocs.aggStep d r)) ∧
    (∀ (l : List GDocs.DocRow),
        (∀ r ∈ l,
          r.action = "CREATE" ∨ r.action = "EDIT" ∨ r.action = "COMMENT") →
        ∀ fid d, GDocs.lookupAgg fid (GDocs.aggregate l) = some d →
          GDocs.aggInv d) := by
  constructor
  · exact fun d r h1 h2 => GDocs.aggStep_inv d r h1 h2
  · intro l hact fid d hlook
    by_cases hfid : fid = ""
    · subst hfid
      rw [show GDocs.lookupAgg "" (GDocs.aggregate l) = none from
        GDocs.lookupAgg_foldStep_empty l [] rfl] at hlook
      exact Option.noConfusion hlook
    · rw [GDocs.lookupAgg_aggregate l fid hfid] at hlook
      by_cases hnil : GDocs.rowsFor fid l = []
      · rw [if_pos hnil] at hlook
        exact Option.noConfusion hlook
      · rw [if_neg hnil] at hlook
        obtain rfl := Option.some.inj hlook
        refine GDocs.foldl_aggStep_inv _ ?_ _ (GDocs.freshAgg_inv fid)
        intro r hr
        exact hact r (List.mem_filter.mp hr).1

/-- C10 witness: one fold step on a fresh rollup keeps the invariants. -/
theorem c10_witness :
    GDocs.aggInv (GDocs.aggStep (GDocs.freshAgg "F")
      ⟨"2024-03-01", "2024-03-01T10:00:00Z", "EDIT", "", "F", "", ""⟩) :=
  c10_rollup_invariants.1 (GDocs.freshAgg "F")
    ⟨"2024-03-01", "2024-03-01T10:00:00Z", "EDIT", "", "F", "", ""⟩
    (GDocs.freshAgg_inv "F") (Or.inr (Or.inl rfl))

end PerfReview
